import Mathlib

set_option maxHeartbeats 1000000

/-! Verification of the CBOM validation tools.

This file embeds the two Python tools of the repository,
`tools/validate_cbom.py` (summary/findings consistency checker) and
`tools/validate_cdx16_schema.py` (CycloneDX 1.6 schema checker), as Lean
definitions over a model of JSON values, and proves the specification's
claims about them.

Python's dynamic semantics is modelled explicitly: attribute and type
errors raised by operations such as `x.get(...)` on a non-dict, `int(x)`
on a non-numeric value, or `k in x` on a non-container surface as an
`Except.error` of the `Py` monad, so that the robustness claims can be
settled faithfully. -/

/-- JSON values as parsed by Python's json module. Numbers are restricted to
integers, which covers every count and version field the tools inspect. -/
inductive JVal where
  | null
  | bool (b : Bool)
  | int (n : Int)
  | str (s : String)
  | arr (elems : List JVal)
  | obj (fields : List (String × JVal))

/-- Python exception kinds the tools can raise. -/
inductive PyErr where
  | attributeError
  | typeError
  | valueError
deriving Repr, DecidableEq

/-- Result of running a piece of Python code: a value, or an uncaught exception. -/
abbrev Py (α : Type) := Except PyErr α

/-- Lookup in an association list. Python dicts (from json) have unique keys,
so first-match lookup coincides with dict access. -/
def alookup {α : Type} (k : String) : List (String × α) → Option α
  | [] => none
  | (k2, v) :: rest => if k2 = k then some v else alookup k rest

/-- Python `d.get(key, default)`: an AttributeError unless `d` is a dict. -/
def pyGet (v : JVal) (k : String) (dflt : JVal) : Py JVal :=
  match v with
  | .obj kvs => .ok ((alookup k kvs).getD dflt)
  | _ => .error .attributeError

/-- Python truthiness of a JSON value. -/
def pyTruthy : JVal → Bool
  | .null => false
  | .bool b => b
  | .int n => n != 0
  | .str s => s ≠ ""
  | .arr xs => !xs.isEmpty
  | .obj kvs => !kvs.isEmpty

mutual

/-- Python `repr()` of a JSON value (escaping inside nested strings is not
reproduced; no message the tools build feeds a string that needs it through
`repr`, strings are always interpolated via `str`). -/
def pyRepr : JVal → String
  | .null => "None"
  | .bool true => "True"
  | .bool false => "False"
  | .int n => toString n
  | .str s => "'" ++ s ++ "'"
  | .arr xs => "[" ++ pyReprList xs ++ "]"
  | .obj kvs => "\x7b" ++ pyReprObj kvs ++ "\x7d"

/-- Comma-separated `repr`s of the elements of a Python list. -/
def pyReprList : List JVal → String
  | [] => ""
  | [x] => pyRepr x
  | x :: y :: rest => pyRepr x ++ ", " ++ pyReprList (y :: rest)

/-- Comma-separated `key: value` `repr`s of the items of a Python dict. -/
def pyReprObj : List (String × JVal) → String
  | [] => ""
  | [(k, v)] => "'" ++ k ++ "': " ++ pyRepr v
  | (k, v) :: p :: rest => "'" ++ k ++ "': " ++ pyRepr v ++ ", " ++ pyReprObj (p :: rest)

end

/-- Python `str()` of a JSON value (as used by f-string interpolation). -/
def pyStr : JVal → String
  | .str s => s
  | v => pyRepr v

/-- Uppercasing as Python's `str.upper` (ASCII letters; the tools only
uppercase severity labels). -/
def strUpper (s : String) : String := String.mk (s.data.map Char.toUpper)

/-- Lowercasing as Python's `str.lower` (ASCII letters). -/
def strLower (s : String) : String := String.mk (s.data.map Char.toLower)

/-- Decimal digits of a non-empty all-digit string, as a number. -/
def digitsToNat : List Char → Option Nat
  | [] => none
  | l => go l 0
where
  go : List Char → Nat → Option Nat
    | [], acc => some acc
    | c :: rest, acc => if c.isDigit then go rest (acc * 10 + (c.toNat - 48)) else none

/-- Python `int()` on a stripped string: optional sign, then decimal digits. -/
def parseInt : List Char → Option Int
  | '-' :: rest => (digitsToNat rest).map (fun n => -(n : Int))
  | '+' :: rest => (digitsToNat rest).map (fun n => (n : Int))
  | l => (digitsToNat l).map (fun n => (n : Int))

/-- Python `int(x)`: ints pass through, bools become 0/1, strings are parsed
after stripping whitespace (ValueError when unparsable), everything else is a
TypeError. -/
def pyInt : JVal → Py Int
  | .int n => .ok n
  | .bool b => .ok (if b then 1 else 0)
  | .str s =>
      match parseInt ((s.data.dropWhile Char.isWhitespace).reverse.dropWhile Char.isWhitespace |>.reverse) with
      | some n => .ok n
      | none => .error .valueError
  | _ => .error .typeError

/-- Whether `int(x)` succeeds on this value. -/
def intable (v : JVal) : Bool :=
  match pyInt v with
  | .ok _ => true
  | .error _ => false

/-- Whether `pat` is a leading segment of `s` (character lists). -/
def startsWithList : List Char → List Char → Bool
  | _, [] => true
  | [], _ :: _ => false
  | c :: cs, p :: ps => (c == p) && startsWithList cs ps

/-- Whether `pat` occurs as a contiguous segment of the list. -/
def subList (pat : List Char) : List Char → Bool
  | [] => pat.isEmpty
  | c :: rest => startsWithList (c :: rest) pat || subList pat rest

/-- Python `pat in s` on strings: substring containment. -/
def strContains (s pat : String) : Bool := subList pat.data s.data

/-- Structural equality of JSON values (Python `==` restricted to the
comparisons the tools perform, which are always against strings). -/
def jeq : JVal → JVal → Bool
  | .null, .null => true
  | .bool a, .bool b => a == b
  | .int a, .int b => a == b
  | .str a, .str b => a == b
  | _, _ => false

/-- Python `k in v` for a string key: key membership for dicts, element
membership for lists, substring test for strings, TypeError otherwise. -/
def pyIn (k : String) : JVal → Py Bool
  | .obj kvs => .ok (alookup k kvs).isSome
  | .arr xs => .ok (xs.any (fun x => jeq x (.str k)))
  | .str s => .ok (strContains s k)
  | _ => .error .typeError

/-- Python iteration (`for x in v`): list elements, dict keys (insertion
order), characters of a string; TypeError otherwise. -/
def pyIter : JVal → Py (List JVal)
  | .arr xs => .ok xs
  | .obj kvs => .ok (kvs.map (fun kv => .str kv.1))
  | .str s => .ok (s.data.map (fun c => .str (String.singleton c)))
  | _ => .error .typeError

/-- Python `s.startsWith(pat)` on strings. -/
def strStarts (s pat : String) : Bool := startsWithList s.data pat.data

/-- Python `v.startsWith(pre)` applied to the result of a `.get`: an
AttributeError unless the value is a string. -/
def pyStartsWith (v : JVal) (pre : String) : Py Bool :=
  match v with
  | .str s => .ok (strStarts s pre)
  | _ => .error .attributeError

/-- Whether a JSON value is a dict. -/
def isObj : JVal → Bool
  | .obj _ => true
  | _ => false

/-- Total variant of `d.get(key, default)`, the default on non-dicts (used
only where the monadic embedding has already guaranteed a dict). -/
def jGetD (v : JVal) (k : String) (dflt : JVal) : JVal :=
  match v with
  | .obj kvs => (alookup k kvs).getD dflt
  | _ => dflt

/-! Embedding of `tools/validate_cbom.py`. -/

/-- SEVERITY_ORDER from validate_cbom.py (declared but never used by the tool). -/
def SEVERITY_ORDER : List String := ["CRITICAL", "HIGH", "MEDIUM", "LOW", "UNKNOWN"]

/-- VULN_SEVERITIES from validate_cbom.py. -/
def VULN_SEVERITIES : List String := ["CRITICAL", "HIGH", "MEDIUM"]

/-- The four aggregates computed by `count_findings`. -/
structure Counts where
  risk_counts : List (String × Int)
  algo_counts : List (String × Int)
  vuln_assets : Int
  quantum_safe : Int
deriving Repr, DecidableEq

/-- Python `d[k] = d.get(k, 0) + 1` on an insertion-ordered dict: bump the
count of `k` in place, or append `(k, 1)` at the end. -/
def bumpCount (k : String) : List (String × Int) → List (String × Int)
  | [] => [(k, 1)]
  | (k2, n) :: rest => if k2 = k then (k2, n + 1) :: rest else (k2, n) :: bumpCount k rest

/-- Loop body of `count_findings`: one pass over the findings, raising
AttributeError on a non-dict entry (as `finding.get` does). -/
def countLoop : List JVal → Counts → Py Counts
  | [], acc => .ok acc
  | finding :: rest, acc => do
      let riskV ← pyGet finding "risk" (.str "UNKNOWN")
      let risk := strUpper (pyStr riskV)
      let algoV ← pyGet finding "algorithm" (.str "unknown")
      let algo := pyStr algoV
      let qrV ← pyGet finding "quantum_resistant" (.bool false)
      let quantum_resistant := pyTruthy qrV
      countLoop rest
        { risk_counts := bumpCount risk acc.risk_counts
          algo_counts := bumpCount algo acc.algo_counts
          quantum_safe := acc.quantum_safe + (if quantum_resistant then 1 else 0)
          vuln_assets :=
            acc.vuln_assets +
              (if VULN_SEVERITIES.contains risk && !quantum_resistant then 1 else 0) }

/-- count_findings from validate_cbom.py. -/
def count_findings (findings : List JVal) : Py Counts :=
  countLoop findings { risk_counts := [], algo_counts := [], vuln_assets := 0, quantum_safe := 0 }

/-- The value `doc.get("findings") or []` of compare_summary. -/
def findingsValue (doc : List (String × JVal)) : JVal :=
  let v := (alookup "findings" doc).getD .null
  if pyTruthy v then v else .arr []

/-- The value `doc.get("summary") or {}` of compare_summary. -/
def summaryValue (doc : List (String × JVal)) : JVal :=
  let v := (alookup "summary" doc).getD .null
  if pyTruthy v then v else .obj []

/-- The value `(summary.get(key) or {}) if isinstance(summary, dict) else {}`
of compare_summary (used for both breakdown maps). -/
def subMapValue (summary : JVal) (key : String) : JVal :=
  match summary with
  | .obj sm =>
      let v := (alookup key sm).getD .null
      if pyTruthy v then v else .obj []
  | _ => .obj []

/-- One of the two identical blocks of compare_summary that check a plain
summary key (`quantum_safe_assets`, `vulnerable_assets`) against a computed
count, threading the mutable `ok`/`errors` state. -/
def summaryFieldCheck (field : String) (computed : Int) (summary : JVal)
    (ok : Bool) (errors : List String) : Py (Bool × List String) := do
  let mem ← pyIn field summary
  if mem then do
    let v ← pyGet summary field (.int (-1))
    let n ← pyInt v
    if n ≠ computed then do
      let v2 ← pyGet summary field .null
      .ok (false, errors ++
        ["summary." ++ field ++ "=" ++ pyStr v2 ++ " != computed " ++ toString computed])
    else
      .ok (ok, errors)
  else
    .ok (ok, errors)

/-- The loop of compare_summary over a computed breakdown dict's items,
checking each against the summary's sub-map `s_map`. -/
def breakdownLoop (label : String) (s_map : JVal) :
    List (String × Int) → Bool → List String → Py (Bool × List String)
  | [], ok, errors => .ok (ok, errors)
  | (sev, count) :: rest, ok, errors => do
      let v ← pyGet s_map sev .null
      if jeq v .null then
        breakdownLoop label s_map rest ok errors
      else do
        let n ← pyInt v
        if n ≠ count then
          breakdownLoop label s_map rest false (errors ++
            ["summary." ++ label ++ "[" ++ sev ++ "]=" ++ pyStr v ++
              " != computed " ++ toString count])
        else
          breakdownLoop label s_map rest ok errors

/-- compare_summary from validate_cbom.py. -/
def compare_summary (doc : List (String × JVal)) : Py (Bool × List String) := do
  match findingsValue doc with
  | .arr fs => do
      let c ← count_findings fs
      let summary := summaryValue doc
      let (ok, errors) ← summaryFieldCheck "quantum_safe_assets" c.quantum_safe summary true []
      let (ok, errors) ← summaryFieldCheck "vulnerable_assets" c.vuln_assets summary ok errors
      let s_risk := subMapValue summary "risk_breakdown"
      let (ok, errors) ← breakdownLoop "risk_breakdown" s_risk c.risk_counts ok errors
      let s_algo := subMapValue summary "algorithm_breakdown"
      let (ok, errors) ← breakdownLoop "algorithm_breakdown" s_algo c.algo_counts ok errors
      .ok (ok, errors)
  | _ => .ok (false, ["findings is not an array"])

/-- Per-file behaviour of validate_cbom.py's `main` on one parsed document:
the file's pass/fail flag and the printed lines. -/
def compareMainDoc (path : String) (doc : List (String × JVal)) : Py (Bool × List String) := do
  let (ok, errors) ← compare_summary doc
  if ok then
    .ok (true, ["[OK] " ++ path ++ ": summary matches findings"])
  else
    .ok (false, ("[FAIL] " ++ path ++ ":") :: errors.map (fun e => "  - " ++ e))

/-! Embedding of `tools/validate_cdx16_schema.py`. -/

/-- validate_spec_version from validate_cdx16_schema.py. -/
def validate_spec_version (doc : List (String × JVal)) : Bool × List String :=
  let spec_version := (alookup "specVersion" doc).getD .null
  if !pyTruthy spec_version then
    (false, ["Missing required field: specVersion"])
  else if !jeq spec_version (.str "1.6") then
    (false, ["Expected specVersion '1.6', got '" ++ pyStr spec_version ++ "'"])
  else
    (true, [])

/-- validate_bom_format from validate_cdx16_schema.py. -/
def validate_bom_format (doc : List (String × JVal)) : Bool × List String :=
  let bom_format := (alookup "bomFormat" doc).getD .null
  if !pyTruthy bom_format then
    (false, ["Missing required field: bomFormat"])
  else if !jeq bom_format (.str "CycloneDX") then
    (false, ["Expected bomFormat 'CycloneDX', got '" ++ pyStr bom_format ++ "'"])
  else
    (true, [])

/-- validate_metadata from validate_cdx16_schema.py. A truthy non-dict
metadata raises AttributeError at `metadata.get("tools", [])`. -/
def validate_metadata (doc : List (String × JVal)) : Py (Bool × List String) := do
  let metadata := (alookup "metadata" doc).getD (.obj [])
  if !pyTruthy metadata then
    .ok (false, ["Missing metadata section"])
  else do
    let tools ← pyGet metadata "tools" (.arr [])
    let e1 := if !pyTruthy tools then ["metadata.tools array is empty or missing"] else []
    let mem ← pyIn "timestamp" metadata
    let errors := e1 ++ (if !mem then ["metadata.timestamp is missing"] else [])
    .ok (errors.isEmpty, errors)

/-- The comprehension `[p for p in properties if p.get("name", "").startswith("cbom:")]`
of validate_component_properties, raising on a non-dict entry or a present
non-string name exactly where Python does. -/
def filterCbom : List JVal → Py (List JVal)
  | [] => .ok []
  | p :: rest => do
      let nameV ← pyGet p "name" (.str "")
      let b ← pyStartsWith nameV "cbom:"
      let tail ← filterCbom rest
      if b then .ok (p :: tail) else .ok tail

/-- The inner loop of validate_component_properties over the cbom-named
properties of component `idx`. -/
def propLoop (idx : Nat) : List JVal → List String
  | [] => []
  | prop :: rest =>
      match prop with
      | .obj kvs =>
          (if (alookup "name" kvs).isSome then []
           else ["Component " ++ toString idx ++ ": property missing 'name' field"]) ++
          (if (alookup "value" kvs).isSome then []
           else ["Component " ++ toString idx ++ ": property missing 'value' field"]) ++
          propLoop idx rest
      | _ => ("Component " ++ toString idx ++ ": property must be an object") :: propLoop idx rest

/-- The outer loop of validate_component_properties over `enumerate(components)`,
accumulating errors and warnings. (The two informational counters
`components_with_crypto` and `components_with_properties` of the source do not
influence any output and are not modelled.) -/
def compLoop (idx : Nat) : List JVal → List String × List String → Py (List String × List String)
  | [], acc => .ok acc
  | component :: rest, (errors, warnings) => do
      let hasCrypto ← pyIn "crypto" component
      let warnings ←
        if hasCrypto then do
          let nameV ← pyGet component "name" (.str "unnamed")
          pure (warnings ++
            ["Component " ++ toString idx ++ " (" ++ pyStr nameV ++
              ") has .crypto field (should use .properties in 1.6)"])
        else
          pure warnings
      let properties ← pyGet component "properties" (.arr [])
      match properties with
      | .arr props => do
          let cbom_props ← filterCbom props
          compLoop (idx + 1) rest (errors ++ propLoop idx cbom_props, warnings)
      | _ =>
          compLoop (idx + 1) rest
            (errors ++ ["Component " ++ toString idx ++ ": properties must be an array"], warnings)

/-- validate_component_properties from validate_cdx16_schema.py; takes the raw
`components` value because `enumerate` is applied inside the function. -/
def validate_component_properties (components : JVal) : Py (Bool × List String) := do
  let comps ← pyIter components
  let (errors, warnings) ← compLoop 0 comps ([], [])
  .ok (errors.isEmpty, errors ++ warnings)

/-- validate_cbom_16 from validate_cdx16_schema.py: the four checks in source
order, conjoined pass flag, concatenated message lists. -/
def validate_cbom_16 (doc : List (String × JVal)) : Py (Bool × List String) := do
  let (ok1, e1) := validate_bom_format doc
  let (ok2, e2) := validate_spec_version doc
  let (ok3, e3) ← validate_metadata doc
  let components := (alookup "components" doc).getD (.arr [])
  let (ok4, e4) ←
    if pyTruthy components then validate_component_properties components
    else pure (true, ([] : List String))
  .ok (((ok1 && ok2) && ok3) && ok4, ((e1 ++ e2) ++ e3) ++ e4)

/-- The message classification of validate_cdx16_schema.py's `main`:
a message is warning-classified when its lowercasing contains "warning" or
"should". -/
def classifyWarn (msg : String) : Bool :=
  strContains (strLower msg) "warning" || strContains (strLower msg) "should"

/-- Per-file behaviour of validate_cdx16_schema.py's `main` on one parsed
document: the file's contribution to `all_ok` and the printed lines. In the
failing branch `all_ok` is already false, so the extra `if args.strict:
all_ok = False` of the source never changes the flag. -/
def schemaMainDoc (strict : Bool) (path : String) (doc : List (String × JVal)) :
    Py (Bool × List String) := do
  let (ok, messages) ← validate_cbom_16 doc
  if ok then
    .ok (true, ["[OK] " ++ path ++ ": Valid CycloneDX 1.6 CBOM"])
  else
    .ok (false, ("[FAIL] " ++ path ++ ":") :: messages.map (fun msg =>
      let px := if classifyWarn msg then (if strict then "[ERROR]" else "[WARN]") else "[ERROR]"
      "  " ++ px ++ " " ++ msg))

/-- The file loop of validate_cdx16_schema.py's `main` over parsed documents. -/
def schemaRunLoop (strict : Bool) :
    List (String × List (String × JVal)) → Bool → List String → Py (Bool × List String)
  | [], allOk, lines => .ok (allOk, lines)
  | (path, doc) :: rest, allOk, lines => do
      let (fileOk, fileLines) ← schemaMainDoc strict path doc
      schemaRunLoop strict rest (allOk && fileOk) (lines ++ fileLines)

/-- Exit code and printed lines of a whole run of validate_cdx16_schema.py
over already-parsed documents. -/
def schemaExit (strict : Bool) (docs : List (String × List (String × JVal))) :
    Py (Nat × List String) := do
  let (allOk, lines) ← schemaRunLoop strict docs true []
  .ok ((if allOk then 0 else 1), lines)

/-! Pure mirror of the aggregator, used to state and prove properties. -/

/-- The risk label a finding is bucketed under: `str(f.get("risk", "UNKNOWN")).upper()`. -/
def riskOf (f : JVal) : String := strUpper (pyStr (jGetD f "risk" (.str "UNKNOWN")))

/-- The algorithm label a finding is bucketed under: `str(f.get("algorithm", "unknown"))`. -/
def algoOf (f : JVal) : String := pyStr (jGetD f "algorithm" (.str "unknown"))

/-- A finding's quantum-resistance flag: `bool(f.get("quantum_resistant", False))`. -/
def qrOf (f : JVal) : Bool := pyTruthy (jGetD f "quantum_resistant" (.bool false))

/-- Pure mirror of `countLoop` (equal to it on lists of dict findings). -/
def pureCountLoop : List JVal → Counts → Counts
  | [], acc => acc
  | f :: rest, acc => pureCountLoop rest
      { risk_counts := bumpCount (riskOf f) acc.risk_counts
        algo_counts := bumpCount (algoOf f) acc.algo_counts
        quantum_safe := acc.quantum_safe + (if qrOf f then 1 else 0)
        vuln_assets :=
          acc.vuln_assets +
            (if VULN_SEVERITIES.contains (riskOf f) && !(qrOf f) then 1 else 0) }

/-- Pure mirror of `count_findings`. -/
def pureCount (fs : List JVal) : Counts :=
  pureCountLoop fs { risk_counts := [], algo_counts := [], vuln_assets := 0, quantum_safe := 0 }

/-- The count stored under a key of a histogram (0 when absent). -/
def getCount (k : String) (m : List (String × Int)) : Int := (alookup k m).getD 0

/-- The number of findings bucketed under risk label `S`. -/
def countRisk (fs : List JVal) (S : String) : Nat :=
  (fs.filter (fun f => riskOf f == S)).length

/-- The number of findings bucketed under algorithm label `A`. -/
def countAlgo (fs : List JVal) (A : String) : Nat :=
  (fs.filter (fun f => algoOf f == A)).length

theorem countLoop_eq_pure (fs : List JVal) (acc : Counts)
    (h : ∀ f ∈ fs, isObj f = true) :
    countLoop fs acc = .ok (pureCountLoop fs acc) := by
  induction fs generalizing acc with
  | nil => rfl
  | cons f rest ih =>
      obtain ⟨kvs, rfl⟩ : ∃ kvs, f = JVal.obj kvs := by
        have hf := h f (List.mem_cons_self f rest)
        cases f <;> simp [isObj] at hf ⊢
      simp only [countLoop, pureCountLoop, pyGet, jGetD, riskOf, algoOf, qrOf,
        Bind.bind, Except.bind]
      exact ih _ (fun g hg => h g (List.mem_cons_of_mem _ hg))

theorem count_findings_eq_pure (fs : List JVal) (h : ∀ f ∈ fs, isObj f = true) :
    count_findings fs = .ok (pureCount fs) :=
  countLoop_eq_pure fs _ h

theorem getCount_bumpCount_self (k : String) (m : List (String × Int)) :
    getCount k (bumpCount k m) = getCount k m + 1 := by
  induction m with
  | nil => simp [bumpCount, getCount, alookup]
  | cons p rest ih =>
      obtain ⟨k2, n⟩ := p
      by_cases hk : k2 = k
      · simp [bumpCount, getCount, alookup, hk]
      · simpa [bumpCount, getCount, alookup, hk] using ih

theorem getCount_bumpCount_ne (k' k : String) (m : List (String × Int)) (h : k' ≠ k) :
    getCount k' (bumpCount k m) = getCount k' m := by
  induction m with
  | nil => simp [bumpCount, getCount, alookup, Ne.symm h]
  | cons p rest ih =>
      obtain ⟨k2, n⟩ := p
      by_cases hk : k2 = k
      · subst hk
        simp [bumpCount, getCount, alookup, Ne.symm h]
      · by_cases hk' : k2 = k'
        · simp [bumpCount, getCount, alookup, hk, hk', h]
        · simpa [bumpCount, getCount, alookup, hk, hk'] using ih

theorem alookup_bumpCount_self_isSome (k : String) (m : List (String × Int)) :
    (alookup k (bumpCount k m)).isSome = true := by
  induction m with
  | nil => simp [bumpCount, alookup]
  | cons p rest ih =>
      obtain ⟨k2, n⟩ := p
      by_cases hk : k2 = k
      · simp [bumpCount, alookup, hk]
      · simpa [bumpCount, alookup, hk] using ih

theorem alookup_bumpCount_ne (k' k : String) (m : List (String × Int)) (h : k' ≠ k) :
    alookup k' (bumpCount k m) = alookup k' m := by
  induction m with
  | nil => simp [bumpCount, alookup, Ne.symm h]
  | cons p rest ih =>
      obtain ⟨k2, n⟩ := p
      by_cases hk : k2 = k
      · subst hk
        simp [bumpCount, alookup, Ne.symm h]
      · by_cases hk' : k2 = k'
        · simp [bumpCount, alookup, hk, hk', h]
        · simpa [bumpCount, alookup, hk, hk'] using ih

theorem pureCountLoop_risk_getCount (fs : List JVal) (acc : Counts) (k : String) :
    getCount k (pureCountLoop fs acc).risk_counts
      = getCount k acc.risk_counts + ((countRisk fs k : Int)) := by
  induction fs generalizing acc with
  | nil => simp [pureCountLoop, countRisk]
  | cons f rest ih =>
      by_cases hk : riskOf f = k
      · subst hk
        simp only [pureCountLoop, ih, countRisk, List.filter_cons, beq_self_eq_true,
          if_true, List.length_cons, getCount_bumpCount_self]
        push_cast
        ring
      · have hbne : (riskOf f == k) = false := by simp [hk]
        simp only [pureCountLoop, ih, countRisk, List.filter_cons, hbne, Bool.false_eq_true,
          if_false]
        rw [getCount_bumpCount_ne k (riskOf f) _ (Ne.symm hk)]

theorem pureCountLoop_algo_getCount (fs : List JVal) (acc : Counts) (k : String) :
    getCount k (pureCountLoop fs acc).algo_counts
      = getCount k acc.algo_counts + ((countAlgo fs k : Int)) := by
  induction fs generalizing acc with
  | nil => simp [pureCountLoop, countAlgo]
  | cons f rest ih =>
      by_cases hk : algoOf f = k
      · subst hk
        simp only [pureCountLoop, ih, countAlgo, List.filter_cons, beq_self_eq_true,
          if_true, List.length_cons, getCount_bumpCount_self]
        push_cast
        ring
      · have hbne : (algoOf f == k) = false := by simp [hk]
        simp only [pureCountLoop, ih, countAlgo, List.filter_cons, hbne, Bool.false_eq_true,
          if_false]
        rw [getCount_bumpCount_ne k (algoOf f) _ (Ne.symm hk)]

theorem pureCountLoop_risk_hasKey (fs : List JVal) (acc : Counts) (k : String) :
    (alookup k (pureCountLoop fs acc).risk_counts).isSome
      = ((alookup k acc.risk_counts).isSome || fs.any (fun f => riskOf f == k)) := by
  induction fs generalizing acc with
  | nil => simp [pureCountLoop]
  | cons f rest ih =>
      by_cases hk : riskOf f = k
      · subst hk
        simp [pureCountLoop, ih, alookup_bumpCount_self_isSome]
      · have hbne : (riskOf f == k) = false := by simp [hk]
        simp [pureCountLoop, ih, alookup_bumpCount_ne k (riskOf f) _ (Ne.symm hk), hbne]

theorem pureCountLoop_algo_hasKey (fs : List JVal) (acc : Counts) (k : String) :
    (alookup k (pureCountLoop fs acc).algo_counts).isSome
      = ((alookup k acc.algo_counts).isSome || fs.any (fun f => algoOf f == k)) := by
  induction fs generalizing acc with
  | nil => simp [pureCountLoop]
  | cons f rest ih =>
      by_cases hk : algoOf f = k
      · subst hk
        simp [pureCountLoop, ih, alookup_bumpCount_self_isSome]
      · have hbne : (algoOf f == k) = false := by simp [hk]
        simp [pureCountLoop, ih, alookup_bumpCount_ne k (algoOf f) _ (Ne.symm hk), hbne]

theorem pureCountLoop_vuln (fs : List JVal) (acc : Counts) :
    (pureCountLoop fs acc).vuln_assets
      = acc.vuln_assets
        + ((fs.filter (fun f => VULN_SEVERITIES.contains (riskOf f) && !(qrOf f))).length : Int) := by
  induction fs generalizing acc with
  | nil => simp [pureCountLoop]
  | cons f rest ih =>
      by_cases hv : (VULN_SEVERITIES.contains (riskOf f) && !(qrOf f)) = true
      · simp only [pureCountLoop, ih, List.filter_cons, hv, if_true, List.length_cons]
        push_cast
        ring
      · simp only [pureCountLoop, ih, List.filter_cons, hv, Bool.false_eq_true, if_false]
        simp only [Bool.not_eq_true] at hv
        simp [hv]

theorem pureCountLoop_qs (fs : List JVal) (acc : Counts) :
    (pureCountLoop fs acc).quantum_safe
      = acc.quantum_safe + ((fs.filter (fun f => qrOf f)).length : Int) := by
  induction fs generalizing acc with
  | nil => simp [pureCountLoop]
  | cons f rest ih =>
      by_cases hv : qrOf f = true
      · simp only [pureCountLoop, ih, List.filter_cons, hv, if_true, List.length_cons]
        push_cast
        ring
      · simp only [pureCountLoop, ih, List.filter_cons, hv, Bool.false_eq_true, if_false]
        simp [hv]

/-! Association list facts used to read entries off the computed histograms. -/

/-- Distinctness of the keys of a histogram, as a pairwise condition. -/
def KeysDistinct (m : List (String × Int)) : Prop :=
  m.Pairwise (fun a b => a.1 ≠ b.1)

theorem fst_mem_bumpCount (k : String) (m : List (String × Int)) :
    ∀ p ∈ bumpCount k m, p.1 = k ∨ ∃ q ∈ m, p.1 = q.1 := by
  induction m with
  | nil =>
      intro p hp
      simp [bumpCount] at hp
      simp [hp]
  | cons q rest ih =>
      obtain ⟨k2, n⟩ := q
      intro p hp
      by_cases hk : k2 = k
      · simp only [bumpCount, hk, if_true] at hp
        rcases List.mem_cons.mp hp with h | h
        · right
          exact ⟨(k2, n), List.mem_cons_self _ _, by simp [h, hk]⟩
        · right
          exact ⟨p, List.mem_cons_of_mem _ h, rfl⟩
      · simp only [bumpCount, hk, if_false] at hp
        rcases List.mem_cons.mp hp with h | h
        · right
          exact ⟨(k2, n), List.mem_cons_self _ _, by simp [h]⟩
        · rcases ih p h with h1 | ⟨q, hq, hq1⟩
          · exact Or.inl h1
          · exact Or.inr ⟨q, List.mem_cons_of_mem _ hq, hq1⟩

theorem keysDistinct_bumpCount (k : String) (m : List (String × Int))
    (h : KeysDistinct m) : KeysDistinct (bumpCount k m) := by
  induction m with
  | nil => simp [bumpCount, KeysDistinct]
  | cons q rest ih =>
      obtain ⟨k2, n⟩ := q
      rw [KeysDistinct, List.pairwise_cons] at h
      obtain ⟨hhead, hrest⟩ := h
      by_cases hk : k2 = k
      · rw [KeysDistinct, bumpCount]
        simp only [hk, if_true]
        rw [List.pairwise_cons]
        exact ⟨fun b hb => hk ▸ hhead b hb, hrest⟩
      · rw [KeysDistinct, bumpCount]
        simp only [hk, if_false]
        rw [List.pairwise_cons]
        refine ⟨fun b hb => ?_, ih hrest⟩
        rcases fst_mem_bumpCount k rest b hb with h1 | ⟨q, hq, hq1⟩
        · simpa [h1] using hk
        · rw [hq1]
          exact hhead q hq

theorem keysDistinct_pureCountLoop_risk (fs : List JVal) (acc : Counts)
    (h : KeysDistinct acc.risk_counts) : KeysDistinct (pureCountLoop fs acc).risk_counts := by
  induction fs generalizing acc with
  | nil => exact h
  | cons f rest ih => exact ih _ (keysDistinct_bumpCount _ _ h)

theorem keysDistinct_pureCountLoop_algo (fs : List JVal) (acc : Counts)
    (h : KeysDistinct acc.algo_counts) : KeysDistinct (pureCountLoop fs acc).algo_counts := by
  induction fs generalizing acc with
  | nil => exact h
  | cons f rest ih => exact ih _ (keysDistinct_bumpCount _ _ h)

theorem alookup_eq_some_of_mem {n : Int} {k : String} {m : List (String × Int)}
    (hd : KeysDistinct m) (hm : (k, n) ∈ m) : alookup k m = some n := by
  induction m with
  | nil => cases hm
  | cons q rest ih =>
      obtain ⟨k2, v⟩ := q
      rw [KeysDistinct, List.pairwise_cons] at hd
      rcases List.mem_cons.mp hm with h | h
      · obtain ⟨h1, h2⟩ := Prod.mk.injEq .. ▸ h
        simp [alookup, h1.symm, h2]
      · have hne : k2 ≠ k := by
          have := hd.1 (k, n) h
          simpa using this
        simp only [alookup, hne, if_false]
        exact ih hd.2 h

theorem mem_of_alookup_eq_some {n : Int} {k : String} {m : List (String × Int)}
    (h : alookup k m = some n) : (k, n) ∈ m := by
  induction m with
  | nil => simp [alookup] at h
  | cons q rest ih =>
      obtain ⟨k2, v⟩ := q
      by_cases hk : k2 = k
      · subst hk
        simp only [alookup, if_true] at h
        simp only [Option.some.injEq] at h
        simp [h]
      · simp only [alookup, hk, if_false] at h
        exact List.mem_cons_of_mem _ (ih h)

theorem alookup_isSome_of_mem {n : Int} {k : String} {m : List (String × Int)}
    (hm : (k, n) ∈ m) : (alookup k m).isSome = true := by
  induction m with
  | nil => cases hm
  | cons q rest ih =>
      obtain ⟨k2, v⟩ := q
      by_cases hk : k2 = k
      · simp [alookup, hk]
      · rcases List.mem_cons.mp hm with h | h
        · obtain ⟨h1, h2⟩ := Prod.mk.injEq .. ▸ h
          exact absurd h1.symm hk
        · simp only [alookup, hk, if_false]
          exact ih h

theorem keysDistinct_pureCount_risk (fs : List JVal) : KeysDistinct (pureCount fs).risk_counts :=
  keysDistinct_pureCountLoop_risk fs _ (by simp [KeysDistinct])

theorem keysDistinct_pureCount_algo (fs : List JVal) : KeysDistinct (pureCount fs).algo_counts :=
  keysDistinct_pureCountLoop_algo fs _ (by simp [KeysDistinct])

theorem pureCount_risk_entry (fs : List JVal) (S : String) (n : Int)
    (h : (S, n) ∈ (pureCount fs).risk_counts) : n = countRisk fs S := by
  have h1 := alookup_eq_some_of_mem (keysDistinct_pureCount_risk fs) h
  have h2 := pureCountLoop_risk_getCount fs
    { risk_counts := [], algo_counts := [], vuln_assets := 0, quantum_safe := 0 } S
  rw [pureCount] at h1
  rw [getCount, h1] at h2
  simpa [getCount, alookup] using h2

theorem pureCount_algo_entry (fs : List JVal) (A : String) (n : Int)
    (h : (A, n) ∈ (pureCount fs).algo_counts) : n = countAlgo fs A := by
  have h1 := alookup_eq_some_of_mem (keysDistinct_pureCount_algo fs) h
  have h2 := pureCountLoop_algo_getCount fs
    { risk_counts := [], algo_counts := [], vuln_assets := 0, quantum_safe := 0 } A
  rw [pureCount] at h1
  rw [getCount, h1] at h2
  simpa [getCount, alookup] using h2

theorem pureCount_risk_mem_iff (fs : List JVal) (S : String) :
    (∃ n, (S, n) ∈ (pureCount fs).risk_counts) ↔ fs.any (fun f => riskOf f == S) = true := by
  constructor
  · intro ⟨n, hn⟩
    have h1 := alookup_isSome_of_mem hn
    have h2 := pureCountLoop_risk_hasKey fs
      { risk_counts := [], algo_counts := [], vuln_assets := 0, quantum_safe := 0 } S
    rw [pureCount] at h1
    rw [h1] at h2
    simpa [alookup] using h2.symm
  · intro h
    have h2 := pureCountLoop_risk_hasKey fs
      { risk_counts := [], algo_counts := [], vuln_assets := 0, quantum_safe := 0 } S
    rw [h] at h2
    simp only [alookup, Option.isSome_none, Bool.false_or] at h2
    obtain ⟨n, hn⟩ := Option.isSome_iff_exists.mp h2
    exact ⟨n, mem_of_alookup_eq_some hn⟩

theorem pureCount_algo_mem_iff (fs : List JVal) (A : String) :
    (∃ n, (A, n) ∈ (pureCount fs).algo_counts) ↔ fs.any (fun f => algoOf f == A) = true := by
  constructor
  · intro ⟨n, hn⟩
    have h1 := alookup_isSome_of_mem hn
    have h2 := pureCountLoop_algo_hasKey fs
      { risk_counts := [], algo_counts := [], vuln_assets := 0, quantum_safe := 0 } A
    rw [pureCount] at h1
    rw [h1] at h2
    simpa [alookup] using h2.symm
  · intro h
    have h2 := pureCountLoop_algo_hasKey fs
      { risk_counts := [], algo_counts := [], vuln_assets := 0, quantum_safe := 0 } A
    rw [h] at h2
    simp only [alookup, Option.isSome_none, Bool.false_or] at h2
    obtain ⟨n, hn⟩ := Option.isSome_iff_exists.mp h2
    exact ⟨n, mem_of_alookup_eq_some hn⟩

/-! Pure mirror of the comparator's sections, and the bridge theorem. -/

theorem jeq_null_iff (v : JVal) : jeq v JVal.null = true ↔ v = JVal.null := by
  cases v <;> simp [jeq]

/-- Polymorphic counterpart of `mem_of_alookup_eq_some`. -/
theorem mem_of_alookup {α : Type} {k : String} {m : List (String × α)} {v : α}
    (h : alookup k m = some v) : (k, v) ∈ m := by
  induction m with
  | nil => simp [alookup] at h
  | cons q rest ih =>
      obtain ⟨k2, w⟩ := q
      by_cases hk : k2 = k
      · subst hk
        simp only [alookup, if_true] at h
        simp only [Option.some.injEq] at h
        simp [h]
      · simp only [alookup, hk, if_false] at h
        exact List.mem_cons_of_mem _ (ih h)

/-- The messages the plain-key block of compare_summary appends for one
summary field. -/
def fieldBlock (field : String) (computed : Int) (sm : List (String × JVal)) : List String :=
  match alookup field sm with
  | none => []
  | some v =>
      match pyInt v with
      | .error _ => []
      | .ok n =>
          if n ≠ computed then
            ["summary." ++ field ++ "=" ++ pyStr v ++ " != computed " ++ toString computed]
          else []

/-- The messages the breakdown loop appends for one computed item `(label, count)`
against the summary sub-map `rb`. -/
def itemBlock (label : String) (rb : List (String × JVal)) (it : String × Int) : List String :=
  match alookup it.1 rb with
  | none => []
  | some v =>
      if jeq v JVal.null then []
      else
        match pyInt v with
        | .error _ => []
        | .ok n =>
            if n ≠ it.2 then
              ["summary." ++ label ++ "[" ++ it.1 ++ "]=" ++ pyStr v ++
                " != computed " ++ toString it.2]
            else []

/-- All messages the breakdown loop appends for a computed histogram. -/
def itemsBlocks (label : String) (rb : List (String × JVal)) (items : List (String × Int)) :
    List String :=
  (items.map (itemBlock label rb)).flatten

theorem summaryFieldCheck_obj (field : String) (computed : Int) (sm : List (String × JVal))
    (ok : Bool) (errors : List String)
    (h : ∀ v, alookup field sm = some v → intable v = true) :
    summaryFieldCheck field computed (.obj sm) ok errors
      = .ok (ok && (fieldBlock field computed sm).isEmpty,
          errors ++ fieldBlock field computed sm) := by
  cases hv : alookup field sm with
  | none =>
      simp [summaryFieldCheck, pyIn, pyGet, hv, fieldBlock, Bind.bind, Except.bind]
  | some v =>
      have hi := h v hv
      rw [intable] at hi
      cases hpi : pyInt v with
      | error e => rw [hpi] at hi; simp at hi
      | ok n =>
          by_cases hne : n = computed
          · subst hne
            simp [summaryFieldCheck, pyIn, pyGet, hv, hpi, fieldBlock, Bind.bind, Except.bind]
          · simp [summaryFieldCheck, pyIn, pyGet, hv, hpi, fieldBlock, hne, Bind.bind, Except.bind]

theorem breakdownLoop_obj (label : String) (rb : List (String × JVal))
    (items : List (String × Int)) (ok : Bool) (errors : List String)
    (h : ∀ k v, alookup k rb = some v → v ≠ JVal.null → intable v = true) :
    breakdownLoop label (.obj rb) items ok errors
      = .ok (ok && (itemsBlocks label rb items).isEmpty,
          errors ++ itemsBlocks label rb items) := by
  induction items generalizing ok errors with
  | nil => simp [breakdownLoop, itemsBlocks]
  | cons it rest ih =>
      obtain ⟨sev, count⟩ := it
      cases hv : alookup sev rb with
      | none =>
          simp only [breakdownLoop, pyGet, hv, Option.getD_none, Bind.bind, Except.bind]
          rw [if_pos (by simp [jeq]), ih]
          simp [itemsBlocks, itemBlock, hv]
      | some v =>
          by_cases hnull : v = JVal.null
          · subst hnull
            simp only [breakdownLoop, pyGet, hv, Option.getD_some, Bind.bind, Except.bind]
            rw [if_pos (by simp [jeq]), ih]
            simp [itemsBlocks, itemBlock, hv, jeq]
          · have hi := h sev v hv hnull
            rw [intable] at hi
            have hj : jeq v JVal.null = false := by
              rcases Bool.eq_false_or_eq_true (jeq v JVal.null) with h0 | h0
              · exact absurd ((jeq_null_iff v).mp h0) hnull
              · exact h0
            cases hpi : pyInt v with
            | error e => rw [hpi] at hi; simp at hi
            | ok n =>
                by_cases hne : n = count
                · subst hne
                  simp only [breakdownLoop, pyGet, hv, Option.getD_some, Bind.bind, Except.bind]
                  rw [if_neg (by simp [hj]), hpi]
                  simp only [Except.bind]
                  rw [if_neg (by simp), ih]
                  simp [itemsBlocks, itemBlock, hv, hj, hpi]
                · simp only [breakdownLoop, pyGet, hv, Option.getD_some, Bind.bind, Except.bind]
                  rw [if_neg (by simp [hj]), hpi]
                  simp only [Except.bind]
                  rw [if_pos hne, ih]
                  simp [itemsBlocks, itemBlock, hv, hj, hpi, hne, List.append_assoc]

/-- Shape of one plain summary field: absent, or convertible by `int()`. -/
def fieldShape (field : String) (sm : List (String × JVal)) : Bool :=
  match alookup field sm with
  | some v => intable v
  | none => true

/-- Shape of a breakdown sub-map value: a dict whose values are null or
convertible by `int()`. -/
def bdShape (v : JVal) : Bool :=
  match v with
  | .obj rb => rb.all (fun kv => jeq kv.2 JVal.null || intable kv.2)
  | _ => false

/-- Well-shapedness of a document for the comparator: the shapes under which
compare_summary runs to completion (dict findings entries, a dict summary with
int-convertible compared values, dict breakdown sub-maps). -/
def wellShapedCompare (doc : List (String × JVal)) : Bool :=
  (match findingsValue doc with
   | .arr fs => fs.all isObj
   | _ => true) &&
  (match summaryValue doc with
   | .obj sm =>
       fieldShape "quantum_safe_assets" sm && fieldShape "vulnerable_assets" sm &&
       bdShape (subMapValue (.obj sm) "risk_breakdown") &&
       bdShape (subMapValue (.obj sm) "algorithm_breakdown")
   | _ => false)

/-- The dict entries of a JSON value ([] when it is not a dict). -/
def objFields : JVal → List (String × JVal)
  | .obj kvs => kvs
  | _ => []

/-- Pure mirror of compare_summary on well-shaped documents. -/
def pureCompare (doc : List (String × JVal)) : Bool × List String :=
  match findingsValue doc with
  | .arr fs =>
      let c := pureCount fs
      let sm := objFields (summaryValue doc)
      let rb := objFields (subMapValue (summaryValue doc) "risk_breakdown")
      let ab := objFields (subMapValue (summaryValue doc) "algorithm_breakdown")
      let es :=
        fieldBlock "quantum_safe_assets" c.quantum_safe sm
          ++ fieldBlock "vulnerable_assets" c.vuln_assets sm
          ++ itemsBlocks "risk_breakdown" rb c.risk_counts
          ++ itemsBlocks "algorithm_breakdown" ab c.algo_counts
      (es.isEmpty, es)
  | _ => (false, ["findings is not an array"])

theorem isEmpty_append (l1 l2 : List String) :
    (l1 ++ l2).isEmpty = (l1.isEmpty && l2.isEmpty) := by
  cases l1 <;> simp [List.isEmpty]

theorem bdShape_entries {rb : List (String × JVal)} (h : bdShape (JVal.obj rb) = true) :
    ∀ k w, alookup k rb = some w → w ≠ JVal.null → intable w = true := by
  intro k w hk hw
  rw [bdShape, List.all_eq_true] at h
  have := h (k, w) (mem_of_alookup hk)
  simp only [Bool.or_eq_true] at this
  rcases this with h1 | h1
  · exact absurd ((jeq_null_iff w).mp h1) hw
  · exact h1

theorem fieldShape_entries {field : String} {sm : List (String × JVal)}
    (h : fieldShape field sm = true) :
    ∀ v, alookup field sm = some v → intable v = true := by
  intro v hv
  rw [fieldShape, hv] at h
  exact h

theorem compare_summary_eq_pure (doc : List (String × JVal))
    (h : wellShapedCompare doc = true) :
    compare_summary doc = .ok (pureCompare doc) := by
  rw [wellShapedCompare, Bool.and_eq_true] at h
  obtain ⟨hfs, hsm⟩ := h
  cases hf : findingsValue doc with
  | arr fs =>
      cases hs : summaryValue doc with
      | obj sm =>
          rw [hf] at hfs
          rw [hs] at hsm
          simp only [Bool.and_eq_true] at hsm
          obtain ⟨⟨⟨h1, h2⟩, h3⟩, h4⟩ := hsm
          have hall : ∀ f ∈ fs, isObj f = true := List.all_eq_true.mp hfs
          simp only [compare_summary, hf, hs, Bind.bind, Except.bind,
            count_findings_eq_pure fs hall]
          rw [summaryFieldCheck_obj _ _ _ _ _ (fieldShape_entries h1)]
          simp only [Except.bind]
          rw [summaryFieldCheck_obj _ _ _ _ _ (fieldShape_entries h2)]
          simp only [Except.bind]
          cases hrb : subMapValue (JVal.obj sm) "risk_breakdown" with
          | obj rb =>
              cases hab : subMapValue (JVal.obj sm) "algorithm_breakdown" with
              | obj ab =>
                  rw [hrb] at h3
                  rw [hab] at h4
                  rw [breakdownLoop_obj _ _ _ _ _ (bdShape_entries h3)]
                  simp only [Except.bind]
                  rw [breakdownLoop_obj _ _ _ _ _ (bdShape_entries h4)]
                  simp only [pureCompare, hf, hs, hrb, hab, objFields]
                  rw [Except.ok.injEq, Prod.mk.injEq]
                  constructor
                  · rw [isEmpty_append, isEmpty_append, isEmpty_append]
                    simp [Bool.and_assoc]
                  · simp [List.append_assoc]
              | null => rw [hab] at h4; simp [bdShape] at h4
              | bool b => rw [hab] at h4; simp [bdShape] at h4
              | int n => rw [hab] at h4; simp [bdShape] at h4
              | str s => rw [hab] at h4; simp [bdShape] at h4
              | arr xs => rw [hab] at h4; simp [bdShape] at h4
          | null => rw [hrb] at h3; simp [bdShape] at h3
          | bool b => rw [hrb] at h3; simp [bdShape] at h3
          | int n => rw [hrb] at h3; simp [bdShape] at h3
          | str s => rw [hrb] at h3; simp [bdShape] at h3
          | arr xs => rw [hrb] at h3; simp [bdShape] at h3
      | null => rw [hs] at hsm; simp at hsm
      | bool b => rw [hs] at hsm; simp at hsm
      | int n => rw [hs] at hsm; simp at hsm
      | str s => rw [hs] at hsm; simp at hsm
      | arr xs => rw [hs] at hsm; simp at hsm
  | null => simp [compare_summary, pureCompare, hf]
  | bool b => simp [compare_summary, pureCompare, hf]
  | int n => simp [compare_summary, pureCompare, hf]
  | str s => simp [compare_summary, pureCompare, hf]
  | obj kvs => simp [compare_summary, pureCompare, hf]

/-! Pure mirror of the schema checker, and its bridge theorems. -/

/-- Whether a property passes the comprehension filter
`p.get("name", "").startswith("cbom:")` (on shape-correct properties). -/
def nameCbom (p : JVal) : Bool :=
  match p with
  | .obj kvs =>
      (match alookup "name" kvs with
       | some (.str s) => strStarts s "cbom:"
       | _ => false)
  | _ => false

/-- Shape of a property entry under which the comprehension filter cannot
raise: a dict whose `name`, when present, is a string. -/
def propShape (p : JVal) : Bool :=
  match p with
  | .obj kvs =>
      (match alookup "name" kvs with
       | none => true
       | some (.str _) => true
       | some _ => false)
  | _ => false

/-- Whether a property dict carries a `value` key. -/
def hasValueKey (p : JVal) : Bool :=
  match p with
  | .obj kvs => (alookup "value" kvs).isSome
  | _ => false

/-- The error messages one component contributes in validate_component_properties. -/
def compErrs (idx : Nat) (c : JVal) : List String :=
  match c with
  | .obj kvs =>
      (match (alookup "properties" kvs).getD (.arr []) with
       | .arr props => propLoop idx (props.filter nameCbom)
       | _ => ["Component " ++ toString idx ++ ": properties must be an array"])
  | _ => []

/-- The warning messages one component contributes in validate_component_properties. -/
def compWarns (idx : Nat) (c : JVal) : List String :=
  match c with
  | .obj kvs =>
      if (alookup "crypto" kvs).isSome then
        ["Component " ++ toString idx ++ " (" ++
          pyStr ((alookup "name" kvs).getD (.str "unnamed")) ++
          ") has .crypto field (should use .properties in 1.6)"]
      else []
  | _ => []

/-- All error messages of the component loop, starting at index `idx`. -/
def compErrsAll (idx : Nat) : List JVal → List String
  | [] => []
  | c :: rest => compErrs idx c ++ compErrsAll (idx + 1) rest

/-- All warning messages of the component loop, starting at index `idx`. -/
def compWarnsAll (idx : Nat) : List JVal → List String
  | [] => []
  | c :: rest => compWarns idx c ++ compWarnsAll (idx + 1) rest

/-- Shape of a component under which the component loop cannot raise:
a dict whose `properties`, when an array, has shape-correct entries. -/
def compShape (c : JVal) : Bool :=
  match c with
  | .obj kvs =>
      (match (alookup "properties" kvs).getD (.arr []) with
       | .arr props => props.all propShape
       | _ => true)
  | _ => false

theorem filterCbom_eq (props : List JVal) (h : ∀ p ∈ props, propShape p = true) :
    filterCbom props = .ok (props.filter nameCbom) := by
  induction props with
  | nil => rfl
  | cons p rest ih =>
      have hp := h p (List.mem_cons_self p rest)
      have ihr := ih (fun q hq => h q (List.mem_cons_of_mem _ hq))
      obtain ⟨kvs, rfl⟩ : ∃ kvs, p = JVal.obj kvs := by
        cases p <;> simp [propShape] at hp ⊢
      cases hn : alookup "name" kvs with
      | none =>
          have hnc : nameCbom (JVal.obj kvs) = false := by simp [nameCbom, hn]
          simp [filterCbom, pyGet, hn, pyStartsWith, strStarts, startsWithList,
            Bind.bind, Except.bind, ihr, List.filter_cons, hnc]
      | some v =>
          obtain ⟨s, rfl⟩ : ∃ s, v = JVal.str s := by
            rw [propShape, hn] at hp
            cases v <;> simp at hp ⊢
          have hnc : nameCbom (JVal.obj kvs) = strStarts s "cbom:" := by
            simp [nameCbom, hn]
          by_cases hb : strStarts s "cbom:" = true
          · simp [filterCbom, pyGet, hn, pyStartsWith, Bind.bind, Except.bind, ihr,
              List.filter_cons, hnc, hb]
          · rw [Bool.not_eq_true] at hb
            simp [filterCbom, pyGet, hn, pyStartsWith, Bind.bind, Except.bind, ihr,
              List.filter_cons, hnc, hb]

theorem compLoop_eq (comps : List JVal) (idx : Nat) (errs warns : List String)
    (h : ∀ c ∈ comps, compShape c = true) :
    compLoop idx comps (errs, warns)
      = .ok (errs ++ compErrsAll idx comps, warns ++ compWarnsAll idx comps) := by
  induction comps generalizing idx errs warns with
  | nil => simp [compLoop, compErrsAll, compWarnsAll]
  | cons c rest ih =>
      have hc := h c (List.mem_cons_self c rest)
      have ihr := fun idx errs warns =>
        ih idx errs warns (fun q hq => h q (List.mem_cons_of_mem _ hq))
      obtain ⟨kvs, rfl⟩ : ∃ kvs, c = JVal.obj kvs := by
        cases c <;> simp [compShape] at hc ⊢
      cases hp : (alookup "properties" kvs).getD (JVal.arr []) with
      | arr props =>
          have hall : ∀ p ∈ props, propShape p = true := by
            rw [compShape, hp, List.all_eq_true] at hc
            exact hc
          cases hcr : (alookup "crypto" kvs).isSome with
          | false =>
              simp [compLoop, pyIn, pyGet, hcr, hp, filterCbom_eq props hall,
                Bind.bind, Except.bind, Pure.pure, Except.pure, ihr, compErrsAll,
                compWarnsAll, compErrs, compWarns, List.append_assoc]
          | true =>
              simp [compLoop, pyIn, pyGet, hcr, hp, filterCbom_eq props hall,
                Bind.bind, Except.bind, Pure.pure, Except.pure, ihr, compErrsAll,
                compWarnsAll, compErrs, compWarns, List.append_assoc]
      | null =>
          cases hcr : (alookup "crypto" kvs).isSome with
          | false =>
              simp [compLoop, pyIn, pyGet, hcr, hp, Bind.bind, Except.bind, Pure.pure, Except.pure, ihr,
                compErrsAll, compWarnsAll, compErrs, compWarns, List.append_assoc]
          | true =>
              simp [compLoop, pyIn, pyGet, hcr, hp, Bind.bind, Except.bind, Pure.pure, Except.pure, ihr,
                compErrsAll, compWarnsAll, compErrs, compWarns, List.append_assoc]
      | bool b =>
          cases hcr : (alookup "crypto" kvs).isSome with
          | false =>
              simp [compLoop, pyIn, pyGet, hcr, hp, Bind.bind, Except.bind, Pure.pure, Except.pure, ihr,
                compErrsAll, compWarnsAll, compErrs, compWarns, List.append_assoc]
          | true =>
              simp [compLoop, pyIn, pyGet, hcr, hp, Bind.bind, Except.bind, Pure.pure, Except.pure, ihr,
                compErrsAll, compWarnsAll, compErrs, compWarns, List.append_assoc]
      | int n =>
          cases hcr : (alookup "crypto" kvs).isSome with
          | false =>
              simp [compLoop, pyIn, pyGet, hcr, hp, Bind.bind, Except.bind, Pure.pure, Except.pure, ihr,
                compErrsAll, compWarnsAll, compErrs, compWarns, List.append_assoc]
          | true =>
              simp [compLoop, pyIn, pyGet, hcr, hp, Bind.bind, Except.bind, Pure.pure, Except.pure, ihr,
                compErrsAll, compWarnsAll, compErrs, compWarns, List.append_assoc]
      | str s =>
          cases hcr : (alookup "crypto" kvs).isSome with
          | false =>
              simp [compLoop, pyIn, pyGet, hcr, hp, Bind.bind, Except.bind, Pure.pure, Except.pure, ihr,
                compErrsAll, compWarnsAll, compErrs, compWarns, List.append_assoc]
          | true =>
              simp [compLoop, pyIn, pyGet, hcr, hp, Bind.bind, Except.bind, Pure.pure, Except.pure, ihr,
                compErrsAll, compWarnsAll, compErrs, compWarns, List.append_assoc]
      | obj kvs2 =>
          cases hcr : (alookup "crypto" kvs).isSome with
          | false =>
              simp [compLoop, pyIn, pyGet, hcr, hp, Bind.bind, Except.bind, Pure.pure, Except.pure, ihr,
                compErrsAll, compWarnsAll, compErrs, compWarns, List.append_assoc]
          | true =>
              simp [compLoop, pyIn, pyGet, hcr, hp, Bind.bind, Except.bind, Pure.pure, Except.pure, ihr,
                compErrsAll, compWarnsAll, compErrs, compWarns, List.append_assoc]

theorem validate_component_properties_eq (comps : List JVal)
    (h : ∀ c ∈ comps, compShape c = true) :
    validate_component_properties (.arr comps)
      = .ok ((compErrsAll 0 comps).isEmpty,
          compErrsAll 0 comps ++ compWarnsAll 0 comps) := by
  simp [validate_component_properties, pyIter, compLoop_eq comps 0 [] [] h,
    Bind.bind, Except.bind]

/-- The array elements of a JSON value ([] when it is not an array). -/
def arrElems : JVal → List JVal
  | .arr xs => xs
  | _ => []

/-- Pure mirror of validate_metadata on well-shaped documents. -/
def pureMetadata (doc : List (String × JVal)) : Bool × List String :=
  let metadata := (alookup "metadata" doc).getD (.obj [])
  if !pyTruthy metadata then
    (false, ["Missing metadata section"])
  else
    let md := objFields metadata
    let errors :=
      (if !pyTruthy ((alookup "tools" md).getD (.arr [])) then
        ["metadata.tools array is empty or missing"] else [])
      ++ (if !(alookup "timestamp" md).isSome then ["metadata.timestamp is missing"] else [])
    (errors.isEmpty, errors)

/-- Pure mirror of the components step of validate_cbom_16 on well-shaped documents. -/
def pureComponents (doc : List (String × JVal)) : Bool × List String :=
  let components := (alookup "components" doc).getD (.arr [])
  if pyTruthy components then
    ((compErrsAll 0 (arrElems components)).isEmpty,
      compErrsAll 0 (arrElems components) ++ compWarnsAll 0 (arrElems components))
  else
    (true, [])

/-- Pure mirror of validate_cbom_16 on well-shaped documents. -/
def pureSchema (doc : List (String × JVal)) : Bool × List String :=
  let r1 := validate_bom_format doc
  let r2 := validate_spec_version doc
  let r3 := pureMetadata doc
  let r4 := pureComponents doc
  (((r1.1 && r2.1) && r3.1) && r4.1, ((r1.2 ++ r2.2) ++ r3.2) ++ r4.2)

/-- Well-shapedness of a document for the schema checker: the shapes under
which validate_cbom_16 runs to completion (a dict metadata when truthy, an
array of shape-correct dict components when truthy). -/
def wellShapedSchema (doc : List (String × JVal)) : Bool :=
  (!pyTruthy ((alookup "metadata" doc).getD (.obj []))
    || isObj ((alookup "metadata" doc).getD (.obj []))) &&
  (!pyTruthy ((alookup "components" doc).getD (.arr []))
    || (match (alookup "components" doc).getD (.arr []) with
        | .arr comps => comps.all compShape
        | _ => false))

theorem validate_metadata_eq (doc : List (String × JVal))
    (h : (!pyTruthy ((alookup "metadata" doc).getD (.obj []))
        || isObj ((alookup "metadata" doc).getD (.obj []))) = true) :
    validate_metadata doc = .ok (pureMetadata doc) := by
  simp only [validate_metadata, pureMetadata]
  cases hm : (alookup "metadata" doc).getD (JVal.obj []) with
  | obj md =>
      by_cases ht : pyTruthy (JVal.obj md) = true
      · simp [ht, pyGet, pyIn, objFields, Bind.bind, Except.bind]
      · rw [Bool.not_eq_true] at ht
        simp [ht]
  | null => simp [pyTruthy]
  | bool b =>
      rw [hm] at h
      cases b with
      | false => simp [pyTruthy]
      | true => simp [pyTruthy, isObj] at h
  | int n =>
      rw [hm] at h
      by_cases hz : n = 0
      · simp [pyTruthy, hz]
      · simp [pyTruthy, isObj, hz] at h
  | str s =>
      rw [hm] at h
      by_cases hz : s = ""
      · simp [pyTruthy, hz]
      · simp [pyTruthy, isObj, hz] at h
  | arr xs =>
      rw [hm] at h
      cases xs with
      | nil => simp [pyTruthy]
      | cons x rest => simp [pyTruthy, isObj] at h

theorem validate_cbom_16_eq (doc : List (String × JVal))
    (h : wellShapedSchema doc = true) :
    validate_cbom_16 doc = .ok (pureSchema doc) := by
  rw [wellShapedSchema, Bool.and_eq_true] at h
  obtain ⟨hmd, hcp⟩ := h
  have hmeta := validate_metadata_eq doc hmd
  simp only [validate_cbom_16, pureSchema, pureComponents, hmeta, Bind.bind, Except.bind]
  cases hc : (alookup "components" doc).getD (JVal.arr []) with
  | arr comps =>
      by_cases ht : pyTruthy (JVal.arr comps) = true
      · have hall : ∀ c ∈ comps, compShape c = true := by
          rw [hc] at hcp
          rw [ht] at hcp
          simpa [List.all_eq_true] using hcp
        simp [ht, validate_component_properties_eq comps hall, arrElems,
          Bind.bind, Except.bind, Pure.pure, Except.pure]
      · rw [Bool.not_eq_true] at ht
        simp [ht, arrElems, Bind.bind, Except.bind, Pure.pure, Except.pure]
  | null => simp [pyTruthy, Pure.pure, Except.pure]
  | bool b =>
      rw [hc] at hcp
      cases b with
      | false => simp [pyTruthy, Pure.pure, Except.pure]
      | true => simp [pyTruthy] at hcp
  | int n =>
      rw [hc] at hcp
      by_cases hz : n = 0
      · simp [pyTruthy, hz, Pure.pure, Except.pure]
      · simp [pyTruthy, hz] at hcp
  | str s =>
      rw [hc] at hcp
      by_cases hz : s = ""
      · simp [pyTruthy, hz, Pure.pure, Except.pure]
      · simp [pyTruthy, hz] at hcp
  | obj kvs =>
      rw [hc] at hcp
      cases kvs with
      | nil => simp [pyTruthy, Pure.pure, Except.pure]
      | cons kv rest => simp [pyTruthy] at hcp

/-! Helper facts about the string operations. -/

theorem strData_append (a b : String) : (a ++ b).data = a.data ++ b.data := rfl

theorem startsWithList_nil (s : List Char) : startsWithList s [] = true := by
  cases s <;> rfl

theorem startsWithList_append_self (m y : List Char) :
    startsWithList (m ++ y) m = true := by
  induction m with
  | nil => exact startsWithList_nil _
  | cons c cs ih => simp [startsWithList, ih]

theorem subList_nil_pat (l : List Char) : subList [] l = true := by
  cases l with
  | nil => rfl
  | cons c rest => rw [subList]; simp [startsWithList_nil]

theorem subList_self_append (m y : List Char) : subList m (m ++ y) = true := by
  cases m with
  | nil => exact subList_nil_pat _
  | cons c cs =>
      rw [List.cons_append, subList]
      simp [startsWithList, startsWithList_append_self]

theorem subList_append_mid (m x y : List Char) : subList m (x ++ (m ++ y)) = true := by
  induction x with
  | nil => rw [List.nil_append]; exact subList_self_append m y
  | cons c x' ih =>
      rw [List.cons_append, subList]
      simp [ih]

theorem strContains_mid (a m b : String) : strContains (a ++ m ++ b) m = true := by
  rw [strContains, strData_append, strData_append, List.append_assoc]
  exact subList_append_mid m.data a.data b.data

theorem jeq_str_iff (v : JVal) (s : String) : jeq v (.str s) = true ↔ v = .str s := by
  cases v <;> simp [jeq]

theorem itemsBlocks_nil (label : String) (items : List (String × Int)) :
    itemsBlocks label [] items = [] := by
  induction items with
  | nil => rfl
  | cons it rest ih =>
      rw [itemsBlocks, List.map_cons, List.flatten_cons]
      rw [itemsBlocks] at ih
      simp [ih, itemBlock, alookup]

/-! Claim C4. -/

/-- C4 (amended): when `findings` is present with a truthy non-array value,
compare_summary reports exactly the error "findings is not an array", marks
the file failed, and emits no other message; a falsy non-array value is
instead replaced by `[]` (see the counterexample). -/
theorem c4_nonarray_truthy (doc : List (String × JVal)) (v : JVal)
    (h1 : alookup "findings" doc = some v) (h2 : pyTruthy v = true)
    (h3 : ∀ xs, v ≠ JVal.arr xs) :
    compare_summary doc = .ok (false, ["findings is not an array"]) ∧
    (∀ path, compareMainDoc path doc
      = .ok (false, ["[FAIL] " ++ path ++ ":", "  - findings is not an array"])) := by
  have hf : findingsValue doc = v := by simp [findingsValue, h1, h2]
  have main : compare_summary doc = .ok (false, ["findings is not an array"]) := by
    cases v with
    | arr xs => exact absurd rfl (h3 xs)
    | null => simp [compare_summary, hf]
    | bool b => simp [compare_summary, hf]
    | int n => simp [compare_summary, hf]
    | str s => simp [compare_summary, hf]
    | obj kvs => simp [compare_summary, hf]
  refine ⟨main, fun path => ?_⟩
  simp [compareMainDoc, main, Bind.bind, Except.bind]

/-- C4 counterexample: `findings` present with the non-array value `0` is
replaced by `[]` and the comparator passes with no message at all, contrary
to the claim's "every document in which findings is not an array". -/
theorem c4_counterexample :
    alookup "findings" [("findings", JVal.int 0)] = some (JVal.int 0) ∧
    (∀ xs, JVal.int 0 ≠ JVal.arr xs) ∧
    compare_summary [("findings", JVal.int 0)] = .ok (true, []) :=
  ⟨rfl, fun _ h => JVal.noConfusion h, rfl⟩

/-- C4 witness: a truthy non-array findings value produces exactly the
claimed error. -/
theorem c4_witness :
    compare_summary [("findings", JVal.str "bad")] = .ok (false, ["findings is not an array"]) ∧
    compareMainDoc "f.json" [("findings", JVal.str "bad")]
      = .ok (false, ["[FAIL] f.json:", "  - findings is not an array"]) := by
  have h := c4_nonarray_truthy [("findings", JVal.str "bad")] (JVal.str "bad") rfl
    (by decide) (fun _ h => JVal.noConfusion h)
  exact ⟨h.1, h.2 "f.json"⟩

/-! Claim C5. -/

/-- C5: the aggregator's vulnerable count equals the number of findings whose
uppercased risk is CRITICAL, HIGH or MEDIUM and whose quantum_resistant is
falsy, and its quantum-safe count equals the number of findings whose
quantum_resistant is truthy; in particular the single finding
`{risk: "CRITICAL", quantum_resistant: true}` yields vulnerable count 0 and
quantum-safe count 1. -/
theorem c5_aggregates (fs : List JVal) (h : fs.all isObj = true) :
    count_findings fs = .ok (pureCount fs) ∧
    (pureCount fs).vuln_assets =
      ((fs.filter (fun f =>
          decide (riskOf f = "CRITICAL" ∨ riskOf f = "HIGH" ∨ riskOf f = "MEDIUM")
            && !(qrOf f))).length : Int) ∧
    (pureCount fs).quantum_safe = ((fs.filter (fun f => qrOf f)).length : Int) ∧
    count_findings [JVal.obj [("risk", JVal.str "CRITICAL"), ("quantum_resistant", JVal.bool true)]]
      = .ok { risk_counts := [("CRITICAL", 1)], algo_counts := [("unknown", 1)],
              vuln_assets := 0, quantum_safe := 1 } := by
  refine ⟨count_findings_eq_pure fs (List.all_eq_true.mp h), ?_, ?_, rfl⟩
  · have hv := pureCountLoop_vuln fs
      { risk_counts := [], algo_counts := [], vuln_assets := 0, quantum_safe := 0 }
    have hfe : (fs.filter (fun f => VULN_SEVERITIES.contains (riskOf f) && !(qrOf f)))
        = fs.filter (fun f =>
            decide (riskOf f = "CRITICAL" ∨ riskOf f = "HIGH" ∨ riskOf f = "MEDIUM")
              && !(qrOf f)) := by
      apply List.filter_congr
      intro f _
      simp [VULN_SEVERITIES, List.contains, List.any, Bool.decide_or, Bool.or_assoc]
    rw [pureCount, hv, hfe]
    simp
  · have hq := pureCountLoop_qs fs
      { risk_counts := [], algo_counts := [], vuln_assets := 0, quantum_safe := 0 }
    rw [pureCount, hq]
    simp

/-- C5 witness: the theorem applied to the spec's single-finding example. -/
theorem c5_aggregates_witness :
    ([JVal.obj [("risk", JVal.str "CRITICAL"), ("quantum_resistant", JVal.bool true)]].all isObj
      = true) ∧
    count_findings [JVal.obj [("risk", JVal.str "CRITICAL"), ("quantum_resistant", JVal.bool true)]]
      = .ok (pureCount [JVal.obj [("risk", JVal.str "CRITICAL"), ("quantum_resistant", JVal.bool true)]]) ∧
    (pureCount [JVal.obj [("risk", JVal.str "CRITICAL"), ("quantum_resistant", JVal.bool true)]]).vuln_assets = 0 ∧
    (pureCount [JVal.obj [("risk", JVal.str "CRITICAL"), ("quantum_resistant", JVal.bool true)]]).quantum_safe = 1 := by
  have h := c5_aggregates
    [JVal.obj [("risk", JVal.str "CRITICAL"), ("quantum_resistant", JVal.bool true)]] rfl
  exact ⟨rfl, h.1, by rw [h.2.1]; rfl, by rw [h.2.2.1]; rfl⟩

/-! Claim C9. -/

/-- C9: a present-but-null `risk` is bucketed under "NONE" (str(None).upper()),
not under "UNKNOWN", and a present-but-null `algorithm` under "None", not
"unknown"; the defaults apply only to absent keys, and the histogram buckets
count exactly the findings with the corresponding computed label. -/
theorem c9_null_fields :
    (∀ kvs : List (String × JVal), alookup "risk" kvs = some JVal.null →
        riskOf (JVal.obj kvs) = "NONE" ∧ riskOf (JVal.obj kvs) ≠ "UNKNOWN") ∧
    (∀ kvs : List (String × JVal), alookup "algorithm" kvs = some JVal.null →
        algoOf (JVal.obj kvs) = "None" ∧ algoOf (JVal.obj kvs) ≠ "unknown") ∧
    (∀ kvs : List (String × JVal), alookup "risk" kvs = none →
        riskOf (JVal.obj kvs) = "UNKNOWN") ∧
    (∀ kvs : List (String × JVal), alookup "algorithm" kvs = none →
        algoOf (JVal.obj kvs) = "unknown") ∧
    (∀ fs : List JVal, fs.all isObj = true →
        count_findings fs = .ok (pureCount fs) ∧
        ∀ k : String, getCount k (pureCount fs).risk_counts = (countRisk fs k : Int) ∧
          getCount k (pureCount fs).algo_counts = (countAlgo fs k : Int)) := by
  refine ⟨?_, ?_, ?_, ?_, ?_⟩
  · intro kvs h
    constructor
    · simp [riskOf, jGetD, h, pyStr, pyRepr, strUpper]
    · simp [riskOf, jGetD, h, pyStr, pyRepr, strUpper]
  · intro kvs h
    constructor
    · simp [algoOf, jGetD, h, pyStr, pyRepr]
    · simp [algoOf, jGetD, h, pyStr, pyRepr]
  · intro kvs h
    simp [riskOf, jGetD, h, pyStr, strUpper]
  · intro kvs h
    simp [algoOf, jGetD, h, pyStr]
  · intro fs h
    refine ⟨count_findings_eq_pure fs (List.all_eq_true.mp h), fun k => ⟨?_, ?_⟩⟩
    · have := pureCountLoop_risk_getCount fs
        { risk_counts := [], algo_counts := [], vuln_assets := 0, quantum_safe := 0 } k
      rw [pureCount, this]
      simp [getCount, alookup]
    · have := pureCountLoop_algo_getCount fs
        { risk_counts := [], algo_counts := [], vuln_assets := 0, quantum_safe := 0 } k
      rw [pureCount, this]
      simp [getCount, alookup]

/-- C9 witness: the theorem applied to a finding with null risk and
algorithm. -/
theorem c9_null_fields_witness :
    riskOf (JVal.obj [("risk", JVal.null)]) = "NONE" ∧
    algoOf (JVal.obj [("algorithm", JVal.null)]) = "None" ∧
    getCount "NONE" (pureCount [JVal.obj [("risk", JVal.null)]]).risk_counts
      = (countRisk [JVal.obj [("risk", JVal.null)]] "NONE" : Int) :=
  ⟨(c9_null_fields.1 [("risk", JVal.null)] rfl).1,
    (c9_null_fields.2.1 [("algorithm", JVal.null)] rfl).1,
    ((c9_null_fields.2.2.2.2 [JVal.obj [("risk", JVal.null)]] rfl).2 "NONE").1⟩

/-! Claim C1. -/

/-- A document that is fully valid except for one component carrying the
legacy `crypto` field: its schema check yields exactly one warning-classified
message and no error. -/
def warnOnlyDoc : List (String × JVal) :=
  [("bomFormat", .str "CycloneDX"), ("specVersion", .str "1.6"),
   ("metadata", .obj [("tools", .arr [.obj [("name", .str "x")]]),
     ("timestamp", .str "2024-01-01T00:00:00Z")]),
   ("components", .arr [.obj [("crypto", .obj [("alg", .str "RSA")]),
     ("name", .str "comp")]])]

/-- C1 (code bug): on a document whose only message is the warning-classified
legacy-crypto warning, validate_cbom_16 still returns ok = true, so main
prints the plain `[OK]` line (no `[WARN]` line at all) and exits 0 even under
`--strict` — although the source's own `--strict` help text says "Treat
warnings as errors". -/
theorem c1_strict_ignored :
    validate_cbom_16 warnOnlyDoc
      = .ok (true, ["Component 0 (comp) has .crypto field (should use .properties in 1.6)"]) ∧
    classifyWarn "Component 0 (comp) has .crypto field (should use .properties in 1.6)" = true ∧
    schemaExit true [("doc.json", warnOnlyDoc)]
      = .ok (0, ["[OK] doc.json: Valid CycloneDX 1.6 CBOM"]) ∧
    schemaExit false [("doc.json", warnOnlyDoc)]
      = .ok (0, ["[OK] doc.json: Valid CycloneDX 1.6 CBOM"]) :=
  ⟨rfl, rfl, rfl, rfl⟩

/-! Claim C3. -/

/-- C3 (amended): both tools return an (ok, messages) result without raising
on every well-shaped document (dict findings entries, int-convertible
compared summary values, dict breakdown sub-maps/metadata, dict components
with string-or-absent property names); outside these shapes an exception can
escape (see the counterexample). -/
theorem c3_no_raise :
    (∀ doc : List (String × JVal), wellShapedCompare doc = true →
        ∃ r, compare_summary doc = .ok r) ∧
    (∀ doc : List (String × JVal), wellShapedSchema doc = true →
        ∃ r, validate_cbom_16 doc = .ok r) :=
  ⟨fun doc h => ⟨pureCompare doc, compare_summary_eq_pure doc h⟩,
   fun doc h => ⟨pureSchema doc, validate_cbom_16_eq doc h⟩⟩

/-- C3 counterexample: a truthy non-dict `metadata` makes the schema checker
raise AttributeError at `metadata.get("tools", [])`, and a truthy non-dict
`risk_breakdown` makes the comparator raise AttributeError at
`s_risk.get(sev)` — the claim's "any shapes" recovery does not hold. -/
theorem c3_counterexample :
    validate_cbom_16 [("metadata", JVal.str "x")] = .error PyErr.attributeError ∧
    compare_summary [("findings", JVal.arr [JVal.obj []]),
        ("summary", JVal.obj [("risk_breakdown", JVal.str "x")])]
      = .error PyErr.attributeError :=
  ⟨rfl, rfl⟩

/-- A fully valid document exercising both tools. -/
def goodDoc : List (String × JVal) :=
  [("bomFormat", .str "CycloneDX"), ("specVersion", .str "1.6"),
   ("metadata", .obj [("tools", .arr [.obj [("name", .str "x")]]),
     ("timestamp", .str "2024-01-01T00:00:00Z")]),
   ("components", .arr [.obj [("name", .str "comp"),
     ("properties", .arr [.obj [("name", .str "cbom:algorithm"), ("value", .str "RSA")]])]]),
   ("findings", .arr [.obj [("risk", .str "HIGH"), ("algorithm", .str "RSA"),
     ("quantum_resistant", .bool false)]]),
   ("summary", .obj [("quantum_safe_assets", .int 0), ("vulnerable_assets", .int 1),
     ("risk_breakdown", .obj [("HIGH", .int 1)]),
     ("algorithm_breakdown", .obj [("RSA", .int 1)])])]

/-- C3 witness: the no-raise theorem applied to a concrete well-shaped
document. -/
theorem c3_no_raise_witness :
    (wellShapedCompare goodDoc = true ∧ ∃ r, compare_summary goodDoc = .ok r) ∧
    (wellShapedSchema goodDoc = true ∧ ∃ r, validate_cbom_16 goodDoc = .ok r) :=
  ⟨⟨rfl, c3_no_raise.1 goodDoc rfl⟩, ⟨rfl, c3_no_raise.2 goodDoc rfl⟩⟩

/-! Claim C6. -/

/-- C6 (amended): for a document whose findings value is an array of dict
findings and whose summary is absent, falsy or `{}` (so `summaryValue` is the
empty dict), the comparator returns ok = true with an empty error list; a
non-dict findings entry instead raises (see the counterexample). -/
theorem c6_empty_summary (doc : List (String × JVal)) (fs : List JVal)
    (h1 : findingsValue doc = JVal.arr fs) (h2 : fs.all isObj = true)
    (h3 : summaryValue doc = JVal.obj []) :
    compare_summary doc = .ok (true, []) := by
  have hws : wellShapedCompare doc = true := by
    rw [wellShapedCompare, h1, h3]
    simp [h2, fieldShape, bdShape, subMapValue, alookup, pyTruthy]
  rw [compare_summary_eq_pure doc hws]
  rw [pureCompare, h1, h3]
  simp [objFields, subMapValue, alookup, fieldBlock, itemsBlocks_nil, pyTruthy]

/-- C6 counterexample: with `summary: {}` the result still depends on the
findings — a non-dict findings entry raises AttributeError instead of
yielding ok = true, refuting the claim's "regardless of the findings". -/
theorem c6_counterexample :
    compare_summary [("findings", JVal.arr [JVal.int 5]), ("summary", JVal.obj [])]
      = .error PyErr.attributeError :=
  rfl

/-- C6 witness: the amended theorem applied to the spec's example document
with one HIGH finding and an empty summary. -/
theorem c6_empty_summary_witness :
    compare_summary [("findings", JVal.arr [JVal.obj [("risk", JVal.str "HIGH")]]),
        ("summary", JVal.obj [])]
      = .ok (true, []) :=
  c6_empty_summary _ [JVal.obj [("risk", JVal.str "HIGH")]] rfl rfl rfl

/-! Claim C7. -/

/-- C7 (amended): a missing `bomFormat`/`specVersion` yields the missing-field
error; a present and truthy value different from the expected literal yields
the error reporting the actual value (which the message contains verbatim);
at most one error is emitted per field; but a present falsy value (false, 0,
"", null) is reported with the missing-field error, which does not carry the
value (see the counterexample). -/
theorem c7_format_version_errors (doc : List (String × JVal)) :
    (pyTruthy ((alookup "bomFormat" doc).getD JVal.null) = false →
      validate_bom_format doc = (false, ["Missing required field: bomFormat"])) ∧
    (∀ v, alookup "bomFormat" doc = some v → pyTruthy v = true → v ≠ JVal.str "CycloneDX" →
      validate_bom_format doc
        = (false, ["Expected bomFormat 'CycloneDX', got '" ++ pyStr v ++ "'"]) ∧
      strContains ("Expected bomFormat 'CycloneDX', got '" ++ pyStr v ++ "'") (pyStr v) = true) ∧
    (alookup "bomFormat" doc = some (JVal.str "CycloneDX") →
      validate_bom_format doc = (true, [])) ∧
    (validate_bom_format doc).2.length ≤ 1 ∧
    (pyTruthy ((alookup "specVersion" doc).getD JVal.null) = false →
      validate_spec_version doc = (false, ["Missing required field: specVersion"])) ∧
    (∀ v, alookup "specVersion" doc = some v → pyTruthy v = true → v ≠ JVal.str "1.6" →
      validate_spec_version doc
        = (false, ["Expected specVersion '1.6', got '" ++ pyStr v ++ "'"]) ∧
      strContains ("Expected specVersion '1.6', got '" ++ pyStr v ++ "'") (pyStr v) = true) ∧
    (alookup "specVersion" doc = some (JVal.str "1.6") →
      validate_spec_version doc = (true, [])) ∧
    (validate_spec_version doc).2.length ≤ 1 := by
  refine ⟨?_, ?_, ?_, ?_, ?_, ?_, ?_, ?_⟩
  · intro h
    simp [validate_bom_format, h]
  · intro v hv ht hne
    have hjne : jeq v (JVal.str "CycloneDX") = false := by
      rcases Bool.eq_false_or_eq_true (jeq v (JVal.str "CycloneDX")) with h0 | h0
      · exact absurd ((jeq_str_iff v "CycloneDX").mp h0) hne
      · exact h0
    constructor
    · simp [validate_bom_format, hv, ht, hjne]
    · exact strContains_mid "Expected bomFormat 'CycloneDX', got '" (pyStr v) "'"
  · intro h
    simp [validate_bom_format, h, pyTruthy, jeq]
  · rw [validate_bom_format]
    split
    · simp
    · split <;> simp
  · intro h
    simp [validate_spec_version, h]
  · intro v hv ht hne
    have hjne : jeq v (JVal.str "1.6") = false := by
      rcases Bool.eq_false_or_eq_true (jeq v (JVal.str "1.6")) with h0 | h0
      · exact absurd ((jeq_str_iff v "1.6").mp h0) hne
      · exact h0
    constructor
    · simp [validate_spec_version, hv, ht, hjne]
    · exact strContains_mid "Expected specVersion '1.6', got '" (pyStr v) "'"
  · intro h
    simp [validate_spec_version, h, pyTruthy, jeq]
  · rw [validate_spec_version]
    split
    · simp
    · split <;> simp

/-- C7 counterexample: `bomFormat: false` is present and different from
"CycloneDX", yet the emitted error is the missing-field one and does not
include the actual value "False". -/
theorem c7_counterexample :
    alookup "bomFormat" [("bomFormat", JVal.bool false)] = some (JVal.bool false) ∧
    JVal.bool false ≠ JVal.str "CycloneDX" ∧
    validate_bom_format [("bomFormat", JVal.bool false)]
      = (false, ["Missing required field: bomFormat"]) ∧
    strContains "Missing required field: bomFormat" (pyStr (JVal.bool false)) = false :=
  ⟨rfl, fun h => JVal.noConfusion h, rfl, rfl⟩

/-- C7 witness: the amended theorem applied to a document with a wrong truthy
bomFormat and a wrong truthy specVersion. -/
theorem c7_format_version_errors_witness :
    validate_bom_format [("bomFormat", JVal.str "SPDX"), ("specVersion", JVal.int 2)]
      = (false, ["Expected bomFormat 'CycloneDX', got 'SPDX'"]) ∧
    validate_spec_version [("bomFormat", JVal.str "SPDX"), ("specVersion", JVal.int 2)]
      = (false, ["Expected specVersion '1.6', got '2'"]) := by
  have h := c7_format_version_errors [("bomFormat", JVal.str "SPDX"), ("specVersion", JVal.int 2)]
  constructor
  · refine (h.2.1 (JVal.str "SPDX") rfl (by decide) ?_).1
    intro he
    injection he with he2
    exact absurd he2 (by decide)
  · exact (h.2.2.2.2.2.1 (JVal.int 2) rfl (by decide)
      (fun he => JVal.noConfusion he)).1

/-! Claim C8. -/

theorem nameCbom_shape (p : JVal) (h : nameCbom p = true) :
    ∃ pkvs s, p = JVal.obj pkvs ∧ alookup "name" pkvs = some (JVal.str s) ∧
      strStarts s "cbom:" = true := by
  cases p with
  | obj pkvs =>
      cases hn : alookup "name" pkvs with
      | none => rw [nameCbom, hn] at h; cases h
      | some w =>
          cases w with
          | str s =>
              rw [nameCbom, hn] at h
              exact ⟨pkvs, s, rfl, hn, h⟩
          | null => rw [nameCbom, hn] at h; cases h
          | bool b => rw [nameCbom, hn] at h; cases h
          | int n => rw [nameCbom, hn] at h; cases h
          | arr xs => rw [nameCbom, hn] at h; cases h
          | obj kvs2 => rw [nameCbom, hn] at h; cases h
  | null => cases h
  | bool b => cases h
  | int n => cases h
  | str s => cases h
  | arr xs => cases h

theorem propLoop_cbom (idx : Nat) (l : List JVal) (h : ∀ p ∈ l, nameCbom p = true) :
    propLoop idx l
      = (l.map (fun p =>
          if hasValueKey p then ([] : List String)
          else ["Component " ++ toString idx ++ ": property missing 'value' field"])).flatten := by
  induction l with
  | nil => rfl
  | cons p rest ih =>
      obtain ⟨pkvs, s, rfl, hn, _⟩ := nameCbom_shape p (h p (List.mem_cons_self p rest))
      rw [propLoop, List.map_cons, List.flatten_cons,
        ih (fun q hq => h q (List.mem_cons_of_mem _ hq))]
      rw [hn]
      cases hv : (alookup "value" pkvs).isSome with
      | true => simp [hasValueKey, hv]
      | false => simp [hasValueKey, hv]

/-- C8: under the component-shape assumptions, the schema checker's messages
decompose per component; within a component, each cbom-named property object
lacking a `value` key contributes exactly the one error naming that
component's index, and a property whose name is absent or does not start with
"cbom:" (i.e. fails the `nameCbom` filter) contributes nothing. -/
theorem c8_value_errors (comps : List JVal) (h : comps.all compShape = true) :
    validate_component_properties (.arr comps)
      = .ok ((compErrsAll 0 comps).isEmpty, compErrsAll 0 comps ++ compWarnsAll 0 comps) ∧
    (∀ idx : Nat, ∀ kvs : List (String × JVal), ∀ props : List JVal,
      (alookup "properties" kvs).getD (.arr []) = JVal.arr props →
      compErrs idx (JVal.obj kvs)
        = ((props.filter nameCbom).map (fun p =>
            if hasValueKey p then ([] : List String)
            else ["Component " ++ toString idx ++ ": property missing 'value' field"])).flatten) ∧
    (∀ p, nameCbom p = true →
      ∃ pkvs s, p = JVal.obj pkvs ∧ alookup "name" pkvs = some (JVal.str s) ∧
        strStarts s "cbom:" = true) := by
  refine ⟨validate_component_properties_eq comps (List.all_eq_true.mp h), ?_, nameCbom_shape⟩
  intro idx kvs props hp
  rw [compErrs, hp]
  exact propLoop_cbom idx (props.filter nameCbom)
    (fun q hq => (List.mem_filter.mp hq).2)

/-- The components array of the C8 witness: one component with a cbom-named
property lacking `value`, a non-cbom property lacking `value`, and a
cbom-named property carrying `value`. -/
def c8comps : List JVal :=
  [.obj [("properties", .arr
    [.obj [("name", .str "cbom:algorithm")],
     .obj [("name", .str "other")],
     .obj [("name", .str "cbom:purpose"), ("value", .str "x")]])]]

/-- C8 witness: on the concrete components array, exactly the one
missing-value error for component 0 is emitted. -/
theorem c8_value_errors_witness :
    c8comps.all compShape = true ∧
    validate_component_properties (.arr c8comps)
      = .ok ((compErrsAll 0 c8comps).isEmpty, compErrsAll 0 c8comps ++ compWarnsAll 0 c8comps) ∧
    compErrsAll 0 c8comps = ["Component 0: property missing 'value' field"] ∧
    compWarnsAll 0 c8comps = [] :=
  ⟨rfl, (c8_value_errors c8comps rfl).1, rfl, rfl⟩

/-! Claim C10. -/

/-- Element access on character lists (used to separate message constants). -/
def nthOpt : List Char → Nat → Option Char
  | [], _ => none
  | c :: _, 0 => some c
  | _ :: rest, i + 1 => nthOpt rest i

theorem nthOpt_append (l1 l2 : List Char) (i : Nat) (h : i < l1.length) :
    nthOpt (l1 ++ l2) i = nthOpt l1 i := by
  induction l1 generalizing i with
  | nil => cases h
  | cons c cs ih =>
      cases i with
      | zero => rfl
      | succ i' => exact ih i' (Nat.lt_of_succ_lt_succ h)

theorem list_append_ne (a b s t : List Char) (i : Nat) (h1 : i < s.length)
    (h2 : i < t.length) (hne : nthOpt s.reverse i ≠ nthOpt t.reverse i) :
    a ++ s ≠ b ++ t := by
  intro he
  have hrev := congrArg List.reverse he
  rw [List.reverse_append, List.reverse_append] at hrev
  have e1 : nthOpt (s.reverse ++ a.reverse) i = nthOpt s.reverse i :=
    nthOpt_append _ _ _ (by simpa using h1)
  have e2 : nthOpt (t.reverse ++ b.reverse) i = nthOpt t.reverse i :=
    nthOpt_append _ _ _ (by simpa using h2)
  rw [hrev] at e1
  exact hne (e1.symm.trans e2)

theorem str_append_ne (a b s t : String) (i : Nat) (h1 : i < s.data.length)
    (h2 : i < t.data.length) (hne : nthOpt s.data.reverse i ≠ nthOpt t.data.reverse i) :
    a ++ s ≠ b ++ t := by
  intro he
  refine list_append_ne a.data b.data s.data t.data i h1 h2 hne ?_
  rw [← strData_append, ← strData_append, he]

theorem nameMsg_ne_valueMsg (j i : Nat) :
    "Component " ++ toString j ++ ": property missing 'name' field"
      ≠ "Component " ++ toString i ++ ": property missing 'value' field" :=
  str_append_ne ("Component " ++ toString j) ("Component " ++ toString i)
    ": property missing 'name' field" ": property missing 'value' field" 8
    (by decide) (by decide) (by decide)

theorem nameMsg_ne_arrMsg (j i : Nat) :
    "Component " ++ toString j ++ ": property missing 'name' field"
      ≠ "Component " ++ toString i ++ ": properties must be an array" :=
  str_append_ne ("Component " ++ toString j) ("Component " ++ toString i)
    ": property missing 'name' field" ": properties must be an array" 0
    (by decide) (by decide) (by decide)

theorem nameMsg_ne_cryptoMsg (j i : Nat) (nm : String) :
    "Component " ++ toString j ++ ": property missing 'name' field"
      ≠ "Component " ++ toString i ++ " (" ++ nm ++ ") has .crypto field (should use .properties in 1.6)" :=
  str_append_ne ("Component " ++ toString j) ("Component " ++ toString i ++ " (" ++ nm)
    ": property missing 'name' field" ") has .crypto field (should use .properties in 1.6)" 0
    (by decide) (by decide) (by decide)

theorem filterCbom_ok_shape (props : List JVal) (l : List JVal)
    (h : filterCbom props = .ok l) :
    ∀ p ∈ l, ∃ kvs s, p = JVal.obj kvs ∧ alookup "name" kvs = some (JVal.str s) := by
  induction props generalizing l with
  | nil =>
      rw [filterCbom] at h
      cases h
      simp
  | cons p rest ih =>
      rw [filterCbom] at h
      cases hg : pyGet p "name" (.str "") with
      | error e =>
          rw [hg] at h
          simp [Bind.bind, Except.bind] at h
      | ok nameV =>
          rw [hg] at h
          simp only [Bind.bind, Except.bind] at h
          cases hs : pyStartsWith nameV "cbom:" with
          | error e =>
              rw [hs] at h
              simp at h
          | ok b =>
              rw [hs] at h
              simp only at h
              cases ht : filterCbom rest with
              | error e =>
                  rw [ht] at h
                  simp at h
              | ok tail =>
                  rw [ht] at h
                  simp only at h
                  obtain ⟨kvs, rfl⟩ : ∃ kvs, p = JVal.obj kvs := by
                    cases p with
                    | obj kvs => exact ⟨kvs, rfl⟩
                    | null => cases hg
                    | bool b2 => cases hg
                    | int n => cases hg
                    | str s2 => cases hg
                    | arr xs => cases hg
                  obtain ⟨s, hsv⟩ : ∃ s, nameV = JVal.str s := by
                    cases nameV with
                    | str s => exact ⟨s, rfl⟩
                    | null => cases hs
                    | bool b2 => cases hs
                    | int n => cases hs
                    | arr xs => cases hs
                    | obj kvs2 => cases hs
                  cases b with
                  | false =>
                      rw [if_neg (by simp)] at h
                      cases h
                      exact ih _ ht
                  | true =>
                      rw [if_pos rfl] at h
                      cases h
                      intro q hq
                      rcases List.mem_cons.mp hq with hq1 | hq1
                      · subst hq1
                        refine ⟨kvs, s, rfl, ?_⟩
                        cases hn : alookup "name" kvs with
                        | some w =>
                            rw [pyGet, hn] at hg
                            cases hg
                            simp only [Option.getD_some] at hsv
                            rw [hsv]
                        | none =>
                            exfalso
                            rw [pyGet, hn] at hg
                            cases hg
                            have heq : JVal.str "" = JVal.str s := by simpa using hsv
                            injection heq with heq2
                            rw [hsv] at hs
                            rw [pyStartsWith] at hs
                            have hb : strStarts s "cbom:" = true := by
                              simpa using hs.symm
                            rw [← heq2] at hb
                            cases hb
                      · exact ih tail ht q hq1

theorem propLoop_only_valueMsg (idx : Nat) (l : List JVal)
    (h : ∀ p ∈ l, ∃ kvs s, p = JVal.obj kvs ∧ alookup "name" kvs = some (JVal.str s)) :
    ∀ m ∈ propLoop idx l,
      m = "Component " ++ toString idx ++ ": property missing 'value' field" := by
  induction l with
  | nil => intro m hm; cases hm
  | cons p rest ih =>
      obtain ⟨kvs, s, rfl, hn⟩ := h p (List.mem_cons_self p rest)
      intro m hm
      rw [propLoop, hn] at hm
      simp only [Option.isSome_some, if_true, List.nil_append] at hm
      cases hv : (alookup "value" kvs).isSome with
      | true =>
          rw [hv] at hm
          simp only [if_true, List.nil_append] at hm
          exact ih (fun q hq => h q (List.mem_cons_of_mem _ hq)) m hm
      | false =>
          rw [hv] at hm
          simp only [Bool.false_eq_true, if_false, List.cons_append, List.nil_append] at hm
          rcases List.mem_cons.mp hm with h1 | h1
          · exact h1
          · exact ih (fun q hq => h q (List.mem_cons_of_mem _ hq)) m h1

theorem compLoop_msgs (comps : List JVal) (idx : Nat) (errs warns E W : List String)
    (h : compLoop idx comps (errs, warns) = .ok (E, W)) :
    (∀ m ∈ E, m ∈ errs
      ∨ (∃ j : Nat, m = "Component " ++ toString j ++ ": property missing 'value' field")
      ∨ (∃ j : Nat, m = "Component " ++ toString j ++ ": properties must be an array")) ∧
    (∀ m ∈ W, m ∈ warns
      ∨ (∃ j : Nat, ∃ nm : String,
          m = "Component " ++ toString j ++ " (" ++ nm
            ++ ") has .crypto field (should use .properties in 1.6)")) := by
  induction comps generalizing idx errs warns with
  | nil =>
      rw [compLoop] at h
      cases h
      exact ⟨fun m hm => Or.inl hm, fun m hm => Or.inl hm⟩
  | cons c rest ih =>
      rw [compLoop] at h
      cases hcr : pyIn "crypto" c with
      | error e => rw [hcr] at h; simp [Bind.bind, Except.bind] at h
      | ok hasCrypto =>
          rw [hcr] at h
          simp only [Bind.bind, Except.bind] at h
          cases hasCrypto with
          | false =>
              simp only [Bool.false_eq_true, if_false, Pure.pure, Except.pure] at h
              cases hp : pyGet c "properties" (.arr []) with
              | error e => rw [hp] at h; simp at h
              | ok pv =>
                  rw [hp] at h
                  simp only at h
                  cases pv with
                  | arr props =>
                      dsimp only at h
                      cases hf : filterCbom props with
                      | error e => rw [hf] at h; simp at h
                      | ok l =>
                          rw [hf] at h
                          simp only at h
                          have := ih (idx + 1) (errs ++ propLoop idx l) warns h
                          refine ⟨fun m hm => ?_, this.2⟩
                          rcases this.1 m hm with h1 | h1 | h1
                          · rcases List.mem_append.mp h1 with h2 | h2
                            · exact Or.inl h2
                            · refine Or.inr (Or.inl ⟨idx, ?_⟩)
                              exact propLoop_only_valueMsg idx l
                                (filterCbom_ok_shape props l hf) m h2
                          · exact Or.inr (Or.inl h1)
                          · exact Or.inr (Or.inr h1)
                  | null =>
                      have := ih (idx + 1)
                        (errs ++ ["Component " ++ toString idx ++ ": properties must be an array"])
                        warns h
                      refine ⟨fun m hm => ?_, this.2⟩
                      rcases this.1 m hm with h1 | h1 | h1
                      · rcases List.mem_append.mp h1 with h2 | h2
                        · exact Or.inl h2
                        · refine Or.inr (Or.inr ⟨idx, ?_⟩)
                          simpa using h2
                      · exact Or.inr (Or.inl h1)
                      · exact Or.inr (Or.inr h1)
                  | bool b =>
                      have := ih (idx + 1)
                        (errs ++ ["Component " ++ toString idx ++ ": properties must be an array"])
                        warns h
                      refine ⟨fun m hm => ?_, this.2⟩
                      rcases this.1 m hm with h1 | h1 | h1
                      · rcases List.mem_append.mp h1 with h2 | h2
                        · exact Or.inl h2
                        · refine Or.inr (Or.inr ⟨idx, ?_⟩)
                          simpa using h2
                      · exact Or.inr (Or.inl h1)
                      · exact Or.inr (Or.inr h1)
                  | int n =>
                      have := ih (idx + 1)
                        (errs ++ ["Component " ++ toString idx ++ ": properties must be an array"])
                        warns h
                      refine ⟨fun m hm => ?_, this.2⟩
                      rcases this.1 m hm with h1 | h1 | h1
                      · rcases List.mem_append.mp h1 with h2 | h2
                        · exact Or.inl h2
                        · refine Or.inr (Or.inr ⟨idx, ?_⟩)
                          simpa using h2
                      · exact Or.inr (Or.inl h1)
                      · exact Or.inr (Or.inr h1)
                  | str s =>
                      have := ih (idx + 1)
                        (errs ++ ["Component " ++ toString idx ++ ": properties must be an array"])
                        warns h
                      refine ⟨fun m hm => ?_, this.2⟩
                      rcases this.1 m hm with h1 | h1 | h1
                      · rcases List.mem_append.mp h1 with h2 | h2
                        · exact Or.inl h2
                        · refine Or.inr (Or.inr ⟨idx, ?_⟩)
                          simpa using h2
                      · exact Or.inr (Or.inl h1)
                      · exact Or.inr (Or.inr h1)
                  | obj kvs2 =>
                      have := ih (idx + 1)
                        (errs ++ ["Component " ++ toString idx ++ ": properties must be an array"])
                        warns h
                      refine ⟨fun m hm => ?_, this.2⟩
                      rcases this.1 m hm with h1 | h1 | h1
                      · rcases List.mem_append.mp h1 with h2 | h2
                        · exact Or.inl h2
                        · refine Or.inr (Or.inr ⟨idx, ?_⟩)
                          simpa using h2
                      · exact Or.inr (Or.inl h1)
                      · exact Or.inr (Or.inr h1)
          | true =>
              simp only [if_true] at h
              cases hnm : pyGet c "name" (.str "unnamed") with
              | error e => rw [hnm] at h; simp [Bind.bind, Except.bind] at h
              | ok nameV =>
                  rw [hnm] at h
                  simp only [Bind.bind, Except.bind, Pure.pure, Except.pure] at h
                  cases hp : pyGet c "properties" (.arr []) with
                  | error e => rw [hp] at h; simp at h
                  | ok pv =>
                      rw [hp] at h
                      simp only at h
                      have hwarn : ∀ (errs2 : List String),
                          compLoop (idx + 1) rest (errs2,
                            warns ++ ["Component " ++ toString idx ++ " (" ++ pyStr nameV
                              ++ ") has .crypto field (should use .properties in 1.6)"])
                            = .ok (E, W) →
                          (∀ m ∈ E, m ∈ errs2
                            ∨ (∃ j : Nat, m = "Component " ++ toString j ++ ": property missing 'value' field")
                            ∨ (∃ j : Nat, m = "Component " ++ toString j ++ ": properties must be an array")) ∧
                          (∀ m ∈ W, m ∈ warns
                            ∨ (∃ j : Nat, ∃ nm : String,
                                m = "Component " ++ toString j ++ " (" ++ nm
                                  ++ ") has .crypto field (should use .properties in 1.6)")) := by
                        intro errs2 h2
                        have := ih (idx + 1) errs2
                          (warns ++ ["Component " ++ toString idx ++ " (" ++ pyStr nameV
                            ++ ") has .crypto field (should use .properties in 1.6)"]) h2
                        refine ⟨this.1, fun m hm => ?_⟩
                        rcases this.2 m hm with h1 | h1
                        · rcases List.mem_append.mp h1 with h2 | h2
                          · exact Or.inl h2
                          · refine Or.inr ⟨idx, pyStr nameV, ?_⟩
                            simpa using h2
                        · exact Or.inr h1
                      cases pv with
                      | arr props =>
                          dsimp only at h
                          cases hf : filterCbom props with
                          | error e => rw [hf] at h; simp at h
                          | ok l =>
                              rw [hf] at h
                              simp only at h
                              have := hwarn (errs ++ propLoop idx l) h
                              refine ⟨fun m hm => ?_, this.2⟩
                              rcases this.1 m hm with h1 | h1 | h1
                              · rcases List.mem_append.mp h1 with h2 | h2
                                · exact Or.inl h2
                                · refine Or.inr (Or.inl ⟨idx, ?_⟩)
                                  exact propLoop_only_valueMsg idx l
                                    (filterCbom_ok_shape props l hf) m h2
                              · exact Or.inr (Or.inl h1)
                              · exact Or.inr (Or.inr h1)
                      | null =>
                          have := hwarn
                            (errs ++ ["Component " ++ toString idx ++ ": properties must be an array"]) h
                          refine ⟨fun m hm => ?_, this.2⟩
                          rcases this.1 m hm with h1 | h1 | h1
                          · rcases List.mem_append.mp h1 with h2 | h2
                            · exact Or.inl h2
                            · refine Or.inr (Or.inr ⟨idx, ?_⟩)
                              simpa using h2
                          · exact Or.inr (Or.inl h1)
                          · exact Or.inr (Or.inr h1)
                      | bool b =>
                          have := hwarn
                            (errs ++ ["Component " ++ toString idx ++ ": properties must be an array"]) h
                          refine ⟨fun m hm => ?_, this.2⟩
                          rcases this.1 m hm with h1 | h1 | h1
                          · rcases List.mem_append.mp h1 with h2 | h2
                            · exact Or.inl h2
                            · refine Or.inr (Or.inr ⟨idx, ?_⟩)
                              simpa using h2
                          · exact Or.inr (Or.inl h1)
                          · exact Or.inr (Or.inr h1)
                      | int n =>
                          have := hwarn
                            (errs ++ ["Component " ++ toString idx ++ ": properties must be an array"]) h
                          refine ⟨fun m hm => ?_, this.2⟩
                          rcases this.1 m hm with h1 | h1 | h1
                          · rcases List.mem_append.mp h1 with h2 | h2
                            · exact Or.inl h2
                            · refine Or.inr (Or.inr ⟨idx, ?_⟩)
                              simpa using h2
                          · exact Or.inr (Or.inl h1)
                          · exact Or.inr (Or.inr h1)
                      | str s =>
                          have := hwarn
                            (errs ++ ["Component " ++ toString idx ++ ": properties must be an array"]) h
                          refine ⟨fun m hm => ?_, this.2⟩
                          rcases this.1 m hm with h1 | h1 | h1
                          · rcases List.mem_append.mp h1 with h2 | h2
                            · exact Or.inl h2
                            · refine Or.inr (Or.inr ⟨idx, ?_⟩)
                              simpa using h2
                          · exact Or.inr (Or.inl h1)
                          · exact Or.inr (Or.inr h1)
                      | obj kvs2 =>
                          have := hwarn
                            (errs ++ ["Component " ++ toString idx ++ ": properties must be an array"]) h
                          refine ⟨fun m hm => ?_, this.2⟩
                          rcases this.1 m hm with h1 | h1 | h1
                          · rcases List.mem_append.mp h1 with h2 | h2
                            · exact Or.inl h2
                            · refine Or.inr (Or.inr ⟨idx, ?_⟩)
                              simpa using h2
                          · exact Or.inr (Or.inl h1)
                          · exact Or.inr (Or.inr h1)

/-- C10: on arrays of dict components with array-shaped properties, an ok
result of validate_component_properties never contains the error
"property missing 'name' field" for any index: a property enters the checked
cbom list only if its `name` key is present (a string starting "cbom:"), so
the branch is unreachable. -/
theorem c10_no_name_error (comps : List JVal)
    (h1 : comps.all isObj = true)
    (h2 : ∀ kvs, JVal.obj kvs ∈ comps →
        ∃ props, (alookup "properties" kvs).getD (.arr []) = JVal.arr props)
    (ok : Bool) (msgs : List String)
    (h3 : validate_component_properties (.arr comps) = .ok (ok, msgs)) :
    ∀ j : Nat, ("Component " ++ toString j ++ ": property missing 'name' field") ∉ msgs := by
  rw [validate_component_properties] at h3
  simp only [pyIter, Bind.bind, Except.bind] at h3
  cases hcl : compLoop 0 comps ([], []) with
  | error e => rw [hcl] at h3; simp at h3
  | ok EW =>
      obtain ⟨E, W⟩ := EW
      rw [hcl] at h3
      simp only at h3
      cases h3
      intro j hm
      have hc := compLoop_msgs comps 0 [] [] E W hcl
      rcases List.mem_append.mp hm with hE | hW
      · rcases hc.1 _ hE with hin | ⟨i, hv⟩ | ⟨i, ha⟩
        · cases hin
        · exact absurd hv (nameMsg_ne_valueMsg j i)
        · exact absurd ha (nameMsg_ne_arrMsg j i)
      · rcases hc.2 _ hW with hin | ⟨i, nm, hcm⟩
        · cases hin
        · exact absurd hcm (nameMsg_ne_cryptoMsg j i nm)

/-- The components array of the C10 witness. -/
def c10comps : List JVal := [.obj [("properties", .arr [.obj [("name", .str "cbom:x")]])]]

/-- C10 witness: a run that does emit a (value) error still contains no
missing-name error. -/
theorem c10_no_name_error_witness :
    validate_component_properties (.arr c10comps)
      = .ok (false, ["Component 0: property missing 'value' field"]) ∧
    ("Component " ++ toString 0 ++ ": property missing 'name' field")
      ∉ ["Component 0: property missing 'value' field"] := by
  have hv : validate_component_properties (.arr c10comps)
      = .ok (false, ["Component 0: property missing 'value' field"]) := rfl
  refine ⟨hv, c10_no_name_error c10comps rfl ?_ false _ hv 0⟩
  intro kvs hk
  simp only [c10comps, List.mem_singleton] at hk
  injection hk with hk2
  subst hk2
  exact ⟨[.obj [("name", .str "cbom:x")]], rfl⟩

/-! Claim C2. -/

theorem count_pos_iff (fs : List JVal) (p : JVal → Bool) :
    0 < (fs.filter p).length ↔ fs.any p = true := by
  induction fs with
  | nil => simp
  | cons f rest ih =>
      by_cases hp : p f = true
      · simp [List.filter_cons, hp]
      · have hp2 : p f = false := by rw [Bool.not_eq_true] at hp; exact hp
        simp [List.filter_cons, hp2, ih]

/-- C2 (amended): for well-shaped documents, the comparator's error list is
the concatenation of the per-field blocks; the breakdown loops compare
exactly the entries whose label occurs among the findings' computed labels
(each checked against the true count), a matching entry contributes no
message and a mismatching entry of an occurring label contributes its
message, while an entry whose label matches no finding is never compared at
all — even with a non-zero claimed count. -/
theorem c2_breakdown (doc : List (String × JVal)) (fs : List JVal)
    (sm rb ab : List (String × JVal))
    (h1 : findingsValue doc = JVal.arr fs)
    (h2 : fs.all isObj = true)
    (h3 : summaryValue doc = JVal.obj sm)
    (h4 : wellShapedCompare doc = true)
    (h5 : subMapValue (JVal.obj sm) "risk_breakdown" = JVal.obj rb)
    (h6 : subMapValue (JVal.obj sm) "algorithm_breakdown" = JVal.obj ab) :
    compare_summary doc = .ok (pureCompare doc) ∧
    (pureCompare doc).2
      = fieldBlock "quantum_safe_assets" (pureCount fs).quantum_safe sm
        ++ fieldBlock "vulnerable_assets" (pureCount fs).vuln_assets sm
        ++ itemsBlocks "risk_breakdown" rb (pureCount fs).risk_counts
        ++ itemsBlocks "algorithm_breakdown" ab (pureCount fs).algo_counts ∧
    (∀ S n, (S, n) ∈ (pureCount fs).risk_counts → n = (countRisk fs S : Int)) ∧
    (∀ S : String, (∃ n, (S, n) ∈ (pureCount fs).risk_counts) ↔ 0 < countRisk fs S) ∧
    (∀ S v n, alookup S rb = some v → v ≠ JVal.null → pyInt v = .ok n →
      itemBlock "risk_breakdown" rb (S, (countRisk fs S : Int))
        = (if n ≠ (countRisk fs S : Int) then
            ["summary.risk_breakdown[" ++ S ++ "]=" ++ pyStr v ++ " != computed "
              ++ toString ((countRisk fs S : Int))]
          else [])) ∧
    (∀ S v n, alookup S rb = some v → v ≠ JVal.null → pyInt v = .ok n →
      0 < countRisk fs S → n ≠ (countRisk fs S : Int) →
      ("summary.risk_breakdown[" ++ S ++ "]=" ++ pyStr v ++ " != computed "
        ++ toString ((countRisk fs S : Int))) ∈ (pureCompare doc).2) ∧
    (∀ S : String, countRisk fs S = 0 → ∀ n, (S, n) ∉ (pureCount fs).risk_counts) ∧
    (∀ A n, (A, n) ∈ (pureCount fs).algo_counts → n = (countAlgo fs A : Int)) ∧
    (∀ A : String, (∃ n, (A, n) ∈ (pureCount fs).algo_counts) ↔ 0 < countAlgo fs A) ∧
    (∀ A v n, alookup A ab = some v → v ≠ JVal.null → pyInt v = .ok n →
      0 < countAlgo fs A → n ≠ (countAlgo fs A : Int) →
      ("summary.algorithm_breakdown[" ++ A ++ "]=" ++ pyStr v ++ " != computed "
        ++ toString ((countAlgo fs A : Int))) ∈ (pureCompare doc).2) := by
  have hdec : (pureCompare doc).2
      = fieldBlock "quantum_safe_assets" (pureCount fs).quantum_safe sm
        ++ fieldBlock "vulnerable_assets" (pureCount fs).vuln_assets sm
        ++ itemsBlocks "risk_breakdown" rb (pureCount fs).risk_counts
        ++ itemsBlocks "algorithm_breakdown" ab (pureCount fs).algo_counts := by
    rw [pureCompare, h1, h3, h5, h6]
    simp [objFields, List.append_assoc]
  have hriskmem : ∀ S : String,
      (∃ n, (S, n) ∈ (pureCount fs).risk_counts) ↔ 0 < countRisk fs S := by
    intro S
    rw [pureCount_risk_mem_iff fs S, countRisk, count_pos_iff]
  have halgomem : ∀ A : String,
      (∃ n, (A, n) ∈ (pureCount fs).algo_counts) ↔ 0 < countAlgo fs A := by
    intro A
    rw [pureCount_algo_mem_iff fs A, countAlgo, count_pos_iff]
  have hblock : ∀ S v n, alookup S rb = some v → v ≠ JVal.null → pyInt v = .ok n →
      itemBlock "risk_breakdown" rb (S, (countRisk fs S : Int))
        = (if n ≠ (countRisk fs S : Int) then
            ["summary.risk_breakdown[" ++ S ++ "]=" ++ pyStr v ++ " != computed "
              ++ toString ((countRisk fs S : Int))]
          else []) := by
    intro S v n hl hv hn
    have hj : jeq v JVal.null = false := by
      rcases Bool.eq_false_or_eq_true (jeq v JVal.null) with h0 | h0
      · exact absurd ((jeq_null_iff v).mp h0) hv
      · exact h0
    rw [itemBlock]
    simp only [hl, hj, Bool.false_eq_true, if_false, hn]
    rfl
  have hablock : ∀ A v n, alookup A ab = some v → v ≠ JVal.null → pyInt v = .ok n →
      itemBlock "algorithm_breakdown" ab (A, (countAlgo fs A : Int))
        = (if n ≠ (countAlgo fs A : Int) then
            ["summary.algorithm_breakdown[" ++ A ++ "]=" ++ pyStr v ++ " != computed "
              ++ toString ((countAlgo fs A : Int))]
          else []) := by
    intro A v n hl hv hn
    have hj : jeq v JVal.null = false := by
      rcases Bool.eq_false_or_eq_true (jeq v JVal.null) with h0 | h0
      · exact absurd ((jeq_null_iff v).mp h0) hv
      · exact h0
    rw [itemBlock]
    simp only [hl, hj, Bool.false_eq_true, if_false, hn]
    rfl
  refine ⟨compare_summary_eq_pure doc h4, hdec, pureCount_risk_entry fs, hriskmem,
    hblock, ?_, ?_, pureCount_algo_entry fs, halgomem, ?_⟩
  · intro S v n hl hv hn hpos hne
    obtain ⟨c, hc⟩ := (hriskmem S).mpr hpos
    have hceq := pureCount_risk_entry fs S c hc
    subst hceq
    have hmem : ("summary.risk_breakdown[" ++ S ++ "]=" ++ pyStr v ++ " != computed "
        ++ toString ((countRisk fs S : Int)))
        ∈ itemBlock "risk_breakdown" rb (S, (countRisk fs S : Int)) := by
      rw [hblock S v n hl hv hn, if_pos hne]
      exact List.mem_singleton.mpr rfl
    have hmem2 : ("summary.risk_breakdown[" ++ S ++ "]=" ++ pyStr v ++ " != computed "
        ++ toString ((countRisk fs S : Int)))
        ∈ itemsBlocks "risk_breakdown" rb (pureCount fs).risk_counts := by
      rw [itemsBlocks]
      exact List.mem_flatten.mpr
        ⟨itemBlock "risk_breakdown" rb (S, (countRisk fs S : Int)),
          List.mem_map.mpr ⟨(S, (countRisk fs S : Int)), hc, rfl⟩, hmem⟩
    rw [hdec]
    simp only [List.mem_append]
    tauto
  · intro S hz n hn
    have := (hriskmem S).mp ⟨n, hn⟩
    rw [hz] at this
    exact Nat.lt_irrefl 0 this
  · intro A v n hl hv hn hpos hne
    obtain ⟨c, hc⟩ := (halgomem A).mpr hpos
    have hceq := pureCount_algo_entry fs A c hc
    subst hceq
    have hmem : ("summary.algorithm_breakdown[" ++ A ++ "]=" ++ pyStr v ++ " != computed "
        ++ toString ((countAlgo fs A : Int)))
        ∈ itemBlock "algorithm_breakdown" ab (A, (countAlgo fs A : Int)) := by
      rw [hablock A v n hl hv hn, if_pos hne]
      exact List.mem_singleton.mpr rfl
    have hmem2 : ("summary.algorithm_breakdown[" ++ A ++ "]=" ++ pyStr v ++ " != computed "
        ++ toString ((countAlgo fs A : Int)))
        ∈ itemsBlocks "algorithm_breakdown" ab (pureCount fs).algo_counts := by
      rw [itemsBlocks]
      exact List.mem_flatten.mpr
        ⟨itemBlock "algorithm_breakdown" ab (A, (countAlgo fs A : Int)),
          List.mem_map.mpr ⟨(A, (countAlgo fs A : Int)), hc, rfl⟩, hmem⟩
    rw [hdec]
    simp only [List.mem_append]
    tauto

/-- The document of the C2 counterexample: empty findings and a non-zero
claimed count for severity HIGH. -/
def c2doc : List (String × JVal) :=
  [("findings", .arr []), ("summary", .obj [("risk_breakdown", .obj [("HIGH", .int 5)])])]

/-- C2 counterexample: HIGH is present with the non-null value 5 in
risk_breakdown, no finding has severity HIGH (count 0), 5 differs from 0 —
yet the comparator reports no mismatch at all, refuting the claim's
"including when that count is zero". -/
theorem c2_counterexample :
    alookup "HIGH" (objFields (subMapValue (summaryValue c2doc) "risk_breakdown"))
      = some (JVal.int 5) ∧
    countRisk [] "HIGH" = 0 ∧
    (5 : Int) ≠ 0 ∧
    compare_summary c2doc = .ok (true, []) :=
  ⟨rfl, rfl, by decide, rfl⟩

/-- The document of the C2 witness: one HIGH/RSA finding, claimed counts 2
and 3. -/
def c2doc2 : List (String × JVal) :=
  [("findings", .arr [.obj [("risk", .str "HIGH"), ("algorithm", .str "RSA")]]),
   ("summary", .obj [("risk_breakdown", .obj [("HIGH", .int 2)]),
     ("algorithm_breakdown", .obj [("RSA", .int 3)])])]

/-- C2 witness: the amended theorem applied to a concrete document with one
mismatching entry in each breakdown. -/
theorem c2_breakdown_witness :
    compare_summary c2doc2 = .ok (pureCompare c2doc2) ∧
    ("summary.risk_breakdown[HIGH]=2 != computed 1") ∈ (pureCompare c2doc2).2 ∧
    ("summary.algorithm_breakdown[RSA]=3 != computed 1") ∈ (pureCompare c2doc2).2 := by
  have h := c2_breakdown c2doc2
    [.obj [("risk", .str "HIGH"), ("algorithm", .str "RSA")]]
    [("risk_breakdown", .obj [("HIGH", .int 2)]), ("algorithm_breakdown", .obj [("RSA", .int 3)])]
    [("HIGH", .int 2)] [("RSA", .int 3)]
    rfl rfl rfl rfl rfl rfl
  refine ⟨h.1, ?_, ?_⟩
  · exact h.2.2.2.2.2.1 "HIGH" (JVal.int 2) 2 rfl (fun he => JVal.noConfusion he) rfl
      (by decide) (by decide)
  · exact h.2.2.2.2.2.2.2.2.2 "RSA" (JVal.int 3) 3 rfl (fun he => JVal.noConfusion he) rfl
      (by decide) (by decide)
